import Mathlib

/-!
# Beats: the Elasticsearch shipping client and the Winlogbeat ingest loop

A shallow embedding of `libbeat/outputs/elasticsearch/client.go` and of the
worker loop of `winlogbeat/beat/winlogbeat.go`, with the properties of the
specification stated over it.

Conventions of the embedding.
* A Go slice is modelled by the list of its elements; where the code returns
  the literal `nil` slice the model returns `none`.
* Calls that leave the two source files (the HTTP transport, the bulk request
  buffer, the event-log API, the publisher, the checkpoint store, the clock)
  are taken as parameters of the function that makes them, and their effects
  are recorded in explicit state.
* A loop `for { ... }` without a bound is embedded with a fuel argument; the
  value `none` means that the loop had not finished when the fuel ran out.
* A call that may panic or not return is embedded as a total function that
  records how the call ends and the state it has reached by then.
-/

set_option autoImplicit false

namespace Beats

/-! ## Winlogbeat: time, metrics and the worker loop -/

/-- Location attached to a `time.Time` value. -/
inductive Location where
  | utc
  | zone (name : String) (offsetSeconds : Int)
  deriving DecidableEq, Repr

/-- Value of Go type `time.Time`: an instant (nanoseconds) and a location. -/
structure Time where
  nanos : Int
  loc : Location
  deriving DecidableEq, Repr

/-- Method `Time.UTC`: the same instant with the location set to UTC. -/
def Time.UTC (t : Time) : Time := { t with loc := Location.utc }

/-- Largest `time.Duration` (an int64 count of nanoseconds). -/
def maxDuration : Int := 2 ^ 63 - 1

/-- Smallest `time.Duration`. -/
def minDuration : Int := -(2 ^ 63)

/-- Method `Time.Sub`: the duration `t - u`, saturating at the int64 bounds. -/
def Time.Sub (t u : Time) : Int :=
  let d := t.nanos - u.nanos
  if d > maxDuration then maxDuration else if d < minDuration then minDuration else d

/-- Function `time.Since(t)`, where `now` is the reading of `time.Now()`. -/
def Since (now t : Time) : Int := now.Sub t

/-- An `expvar.Map` of integer counters, keyed by name. -/
abbrev ExpvarMap := String → Int

/-- Method `expvar.Map.Add(key, delta)`. -/
def ExpvarMap.Add (m : ExpvarMap) (key : String) (delta : Int) : ExpvarMap :=
  fun k => if k = key then m k + delta else m k

/-- An event-log record, as far as the worker loop reads it; `payload` stands
for the fields that only `ToMapStr` reads. -/
structure Record (ρ : Type) where
  RecordNumber : Nat
  TimeGenerated : Time
  payload : ρ

/-- One call `checkpoint.Persist(name, recordNumber, ts)`. -/
structure PersistCall where
  name : String
  recordNumber : Nat
  ts : Time
  deriving DecidableEq, Repr

/-- What the worker loop of `processEventLog` reads and writes outside its
locals: the two metric maps, the calls made to `checkpoint.Persist` and the
batches handed to `client.PublishEvents`, both oldest first. -/
structure WorkerState (α : Type) where
  publishedEvents : ExpvarMap
  ignoredEvents : ExpvarMap
  persisted : List PersistCall
  submitted : List (List α)

/-- What the worker loop calls: `api.Name()`, the reading of `time.Now()` at the
filter check of the record at a given position, `Record.ToMapStr` and
`client.PublishEvents(events, publisher.Sync)`. -/
structure WorkerEnv (ρ α : Type) where
  name : String
  now : Nat → Time
  toMapStr : Record ρ → α
  publish : List α → Bool

/-- The filter test of `processEventLog`:
`ignoreOlder != 0 && time.Since(lr.TimeGenerated) > ignoreOlder`. -/
def ignoreOlderDrops {ρ : Type} (ignoreOlder : Int) (now : Time) (lr : Record ρ) : Bool :=
  decide (ignoreOlder ≠ 0) && decide (Since now lr.TimeGenerated > ignoreOlder)

/-- The loop `for _, lr := range records` of `processEventLog`; `i` is the
position of the head of the remaining records in the read. It returns the
batch and the `ignoredEvents` map. -/
def filterEvents {ρ α : Type} (env : WorkerEnv ρ α) (ignoreOlder : Int) :
    List (Record ρ) → Nat → List α → ExpvarMap → List α × ExpvarMap
  | [], _, events, ignored => (events, ignored)
  | lr :: rest, i, events, ignored =>
    if ignoreOlderDrops ignoreOlder (env.now i) lr then
      filterEvents env ignoreOlder rest (i + 1) events
        ((ignored.Add "total" 1).Add env.name 1)
    else
      filterEvents env ignoreOlder rest (i + 1) (events ++ [env.toMapStr lr]) ignored

/-- Outcome of one pass through the body of the worker loop. -/
inductive LoopStep where
  | next
  | exit
  deriving DecidableEq, Repr

/-- One pass through the body of the loop of `processEventLog`: `done` tells
whether the shutdown channel is closed, `read` is the result of `api.Read()`
(`none` for an error). -/
def processEventLogStep {ρ α : Type} (env : WorkerEnv ρ α) (ignoreOlder : Int)
    (done : Bool) (read : Option (List (Record ρ))) (st : WorkerState α) :
    WorkerState α × LoopStep :=
  if done then (st, LoopStep.exit)
  else
    match read with
    | none => (st, LoopStep.exit)
    | some records =>
      match records.getLast? with
      | none => (st, LoopStep.next)
      | some last =>
        let (events, ignored) := filterEvents env ignoreOlder records 0 [] st.ignoredEvents
        let numEvents : Int := events.length
        let ok := env.publish events
        let published :=
          if ok then (st.publishedEvents.Add "total" numEvents).Add env.name numEvents
          else st.publishedEvents.Add "failures" 1
        ({ publishedEvents := published
           ignoredEvents := ignored
           persisted := st.persisted ++
             [{ name := env.name, recordNumber := last.RecordNumber,
                ts := last.TimeGenerated.UTC }]
           submitted := st.submitted ++ [events] }, LoopStep.next)

/-- The records of a read that the `ignore_older` filter drops, with their
positions; `i` is the position of the first record of `records`. -/
def droppedRecords {ρ α : Type} (env : WorkerEnv ρ α) (ignoreOlder : Int)
    (records : List (Record ρ)) (i : Nat) : List (Nat × Record ρ) :=
  (records.enumFrom i).filter (fun p => ignoreOlderDrops ignoreOlder (env.now p.1) p.2)

/-- The records of a read that are not older than `ignoreOlder`, in read
order, with their positions. -/
def keptRecords {ρ α : Type} (env : WorkerEnv ρ α) (ignoreOlder : Int)
    (records : List (Record ρ)) (i : Nat) : List (Nat × Record ρ) :=
  (records.enumFrom i).filter (fun p => !ignoreOlderDrops ignoreOlder (env.now p.1) p.2)

/-- A worker environment whose publisher always reports failure. -/
def failingEnv (name : String) : WorkerEnv Unit Nat :=
  { name := name, now := fun _ => ⟨100, Location.utc⟩,
    toMapStr := fun r => r.RecordNumber, publish := fun _ => false }

/-- A worker environment whose publisher always reports success. -/
def acceptingEnv (name : String) : WorkerEnv Unit Nat :=
  { name := name, now := fun _ => ⟨100, Location.utc⟩,
    toMapStr := fun r => r.RecordNumber, publish := fun _ => true }

/-- A worker state with all counters at zero and nothing persisted. -/
def freshWorker : WorkerState Nat :=
  { publishedEvents := fun _ => 0, ignoredEvents := fun _ => 0, persisted := [], submitted := [] }

/-- A record with the given number, generated at the given instant in a
zone one hour east of UTC. -/
def sampleRecord (number : Nat) (nanos : Int) : Record Unit :=
  { RecordNumber := number, TimeGenerated := ⟨nanos, Location.zone "CET" 3600⟩, payload := () }

/-! ## Elasticsearch client: errors and the streaming JSON reader -/

/-- Error values of the Elasticsearch client: the three sentinels of the
output, the four of `client.go`, the errors of the JSON reader and any other
error (transport faults, `fmt.Errorf` of a response status). -/
inductive Err where
  | ErrNotConnected
  | ErrJSONEncodeFailed
  | ErrTempBulkFailure
  | errExpectedItemObject
  | errExpectedStatusCode
  | errUnexpectedEmptyObject
  | errExcpectedObjectEnd
  | reader (msg : String)
  | other (msg : String)
  deriving DecidableEq, Repr

/-- Modelled from the spec: the input of the reader, which `client.go` hands
over as raw bytes. The bytes of a response are modelled by the sequence of
their lexical units. -/
inductive Tok where
  | dictStart
  | dictEnd
  | arrStart
  | arrEnd
  | key (name : String)
  | int (v : Int)
  | str (s : String)
  | lit (raw : String)
  deriving DecidableEq, Repr

/-- Modelled from the spec: the kinds of entity that a step of the reader
reports; `client.go` names `dictEnd` and does not define it. -/
inductive Entity where
  | failEntity
  | dictStart
  | dictEnd
  | arrStart
  | arrEnd
  | mapKeyEntity
  | intEntity
  | stringEntity
  | litEntity
  deriving DecidableEq, Repr

/-- Kind of a token. -/
def Tok.entity : Tok → Entity
  | Tok.dictStart => Entity.dictStart
  | Tok.dictEnd => Entity.dictEnd
  | Tok.arrStart => Entity.arrStart
  | Tok.arrEnd => Entity.arrEnd
  | Tok.key _ => Entity.mapKeyEntity
  | Tok.int _ => Entity.intEntity
  | Tok.str _ => Entity.stringEntity
  | Tok.lit _ => Entity.litEntity

/-- Modelled from the spec: the type `jsonReader` of the pull parser, which
`client.go` uses and does not define. The reader holds the part of the
response that it has not read yet. -/
structure jsonReader where
  toks : List Tok
  deriving DecidableEq, Repr

/-- Modelled from the spec: `jsonReader.init(raw)`, which points the reader at
the start of a response. -/
def jsonReader.init (raw : List Tok) : jsonReader := ⟨raw⟩

/-- Modelled from the spec: the primitive `step` of the reader, which reads one
entity and returns its kind and raw content, or an error at the end of the
input. -/
def jsonReader.step (r : jsonReader) : jsonReader × Entity × Option Tok × Option Err :=
  match r.toks with
  | [] => (r, Entity.failEntity, none, some (Err.reader "unexpected end of input"))
  | t :: ts => (⟨ts⟩, t.entity, some t, none)

/-- Modelled from the spec: the primitive `expectDict`, an error unless the next
entity opens a dictionary. -/
def jsonReader.expectDict (r : jsonReader) : jsonReader × Option Err :=
  match r.step with
  | (r1, _, _, some e) => (r1, some e)
  | (r1, kind, _, none) =>
    if kind = Entity.dictStart then (r1, none) else (r1, some (Err.reader "expected object"))

/-- Modelled from the spec: the primitive `expectArray`, an error unless the
next entity opens an array. -/
def jsonReader.expectArray (r : jsonReader) : jsonReader × Option Err :=
  match r.step with
  | (r1, _, _, some e) => (r1, some e)
  | (r1, kind, _, none) =>
    if kind = Entity.arrStart then (r1, none) else (r1, some (Err.reader "expected array"))

/-- Modelled from the spec: the primitive `nextFieldName`, which returns the
kind and the name of the next dictionary field, or the kind `dictEnd` where
the dictionary ends; any other entity is an error. The name is `none` where
the Go value is a nil byte slice. -/
def jsonReader.nextFieldName (r : jsonReader) :
    jsonReader × Entity × Option String × Option Err :=
  match r.step with
  | (r1, kind, _, some e) => (r1, kind, none, some e)
  | (r1, _, some (Tok.key name), none) => (r1, Entity.mapKeyEntity, some name, none)
  | (r1, kind, _, none) =>
    if kind = Entity.dictEnd then (r1, kind, none, none)
    else (r1, kind, none, some (Err.reader "expected field name"))

/-- Modelled from the spec: the primitive `nextInt`, which reads an integer. -/
def jsonReader.nextInt (r : jsonReader) : jsonReader × Int × Option Err :=
  match r.step with
  | (r1, _, _, some e) => (r1, 0, some e)
  | (r1, _, some (Tok.int v), none) => (r1, v, none)
  | (r1, _, _, none) => (r1, 0, some (Err.reader "expected integer"))

/-- Modelled from the spec: the scan of `ignoreNext`, which reads entities until
the value that starts at the current position is complete, counting the open
brackets in `depth`, and returns the tokens read and the rest of the input, or
`none` when the input ends first. -/
def skipValue : Nat → List Tok → List Tok → Option (List Tok × List Tok)
  | _, _, [] => none
  | depth, acc, t :: ts =>
    match t with
    | Tok.dictStart => skipValue (depth + 1) (acc ++ [t]) ts
    | Tok.arrStart => skipValue (depth + 1) (acc ++ [t]) ts
    | Tok.dictEnd =>
      if depth ≤ 1 then some (acc ++ [t], ts) else skipValue (depth - 1) (acc ++ [t]) ts
    | Tok.arrEnd =>
      if depth ≤ 1 then some (acc ++ [t], ts) else skipValue (depth - 1) (acc ++ [t]) ts
    | _ => if depth = 0 then some (acc ++ [t], ts) else skipValue depth (acc ++ [t]) ts

/-- Modelled from the spec: the primitive `ignoreNext`, which skips the next
value whatever its kind and returns its raw content. -/
def jsonReader.ignoreNext (r : jsonReader) : jsonReader × Option (List Tok) × Option Err :=
  match skipValue 0 [] r.toks with
  | some (raw, rest) => (⟨rest⟩, some raw, none)
  | none => (⟨[]⟩, none, some (Err.reader "unexpected end of input"))

/-! ## Elasticsearch client: the bulk response scanner -/

/-- Field names the scanner looks for. -/
def nameItems : String := "items"

/-- Name of the status field of an item. -/
def nameStatus : String := "status"

/-- Name of the error field of an item. -/
def nameError : String := "error"

/-- The loop `for { ... }` of `itemStatusInner`, with the locals `status` and
`msg`. It returns the reader and the three results of `itemStatusInner`. An
error of `nextFieldName` is logged and the loop goes on. -/
def itemStatusInnerLoop :
    Nat → jsonReader → Int → Option (List Tok) →
      Option (jsonReader × Int × Option (List Tok) × Option Err)
  | 0, _, _, _ => none
  | fuel + 1, r, status, msg =>
    match r.nextFieldName with
    | (r1, kind, name, _) =>
      if kind = Entity.dictEnd then
        if status < 0 then some (r1, 0, none, some Err.errExpectedStatusCode)
        else some (r1, status, msg, none)
      else if name = some nameStatus then
        match r1.nextInt with
        | (r2, _, some e) => some (r2, 0, none, some e)
        | (r2, v, none) => itemStatusInnerLoop fuel r2 v msg
      else if name = some nameError then
        match r1.ignoreNext with
        | (r2, _, some e) => some (r2, 0, none, some e)
        | (r2, raw, none) => itemStatusInnerLoop fuel r2 status raw
      else
        itemStatusInnerLoop fuel r1.ignoreNext.1 status msg

/-- Function `itemStatusInner`. -/
def itemStatusInner (fuel : Nat) (r : jsonReader) :
    Option (jsonReader × Int × Option (List Tok) × Option Err) :=
  match r.expectDict with
  | (r1, some _) => some (r1, 0, none, some Err.errExpectedItemObject)
  | (r1, none) => itemStatusInnerLoop fuel r1 (-1) none

/-- Function `itemStatus`. The error of `itemStatusInner` is assigned to `err`
and then overwritten by the assignment from `reader.step()`. -/
def itemStatus (fuel : Nat) (r : jsonReader) :
    Option (jsonReader × Int × Option (List Tok) × Option Err) :=
  match r.expectDict with
  | (r1, some _) => some (r1, 0, none, some Err.errExpectedItemObject)
  | (r1, none) =>
    match r1.nextFieldName with
    | (r2, _, _, some e) => some (r2, 0, none, some e)
    | (r2, kind, _, none) =>
      if kind = Entity.dictEnd then some (r2, 0, none, some Err.errUnexpectedEmptyObject)
      else
        match itemStatusInner fuel r2 with
        | none => none
        | some (r3, status, msg, _) =>
          match r3.step with
          | (r4, _, _, some e) => some (r4, 0, none, some e)
          | (r4, kind2, _, none) =>
            if kind2 ≠ Entity.dictEnd then some (r4, 0, none, some Err.errExcpectedObjectEnd)
            else some (r4, status, msg, none)

/-- The loop `for { ... }` of `bulkCollectPublishFails` that looks for the field
`items`: `some none` stands for the `return nil` of a malformed response,
`some (some r)` for the `break` with the reader in front of the value. -/
def findItems : Nat → jsonReader → Option (Option jsonReader)
  | 0, _ => none
  | fuel + 1, r =>
    match r.nextFieldName with
    | (_, _, _, some _) => some none
    | (r1, kind, name, none) =>
      if kind = Entity.dictEnd then some none
      else if name = some nameItems then some (some r1)
      else findItems fuel r1.ignoreNext.1

/-- The loop `for i := 0; i < count; i++` of `bulkCollectPublishFails`, with
`remaining = count - i`. The slice `failed := events[:0]` shares the backing
array `buf` of `events` and has length `n`, so `append(failed, events[i])`
writes `events[i]` at position `n` of `buf`. An index out of range ends the run
without a result. -/
def collectLoop {α : Type} (fuel : Nat) :
    Nat → Nat → jsonReader → List α → Nat → Option (Option (List α))
  | 0, _, _, buf, n => some (some (buf.take n))
  | remaining + 1, i, r, buf, n =>
    match itemStatus fuel r with
    | none => none
    | some (_, _, _, some _) => some none
    | some (r1, status, _, none) =>
      if status < 300 then collectLoop fuel remaining (i + 1) r1 buf n
      else if status < 500 ∧ status ≠ 429 then collectLoop fuel remaining (i + 1) r1 buf n
      else
        match buf[i]? with
        | none => none
        | some e => collectLoop fuel remaining (i + 1) r1 (buf.set n e) (n + 1)

/-- Function `bulkCollectPublishFails`: the events to send again, or `some none`
for the nil slice returned on a parse error. -/
def bulkCollectPublishFails {α : Type} (fuel : Nat) (reader : jsonReader) (events : List α) :
    Option (Option (List α)) :=
  match reader.expectDict with
  | (_, some _) => some none
  | (r1, none) =>
    match findItems fuel r1 with
    | none => none
    | some none => some none
    | some (some r2) =>
      match r2.expectArray with
      | (_, some _) => some none
      | (r3, none) => collectLoop fuel events.length 0 r3 events 0

/-! ## JSON values and bulk responses -/

/-- A JSON value. -/
inductive Json where
  | null
  | bool (b : Bool)
  | int (n : Int)
  | str (s : String)
  | double (raw : String)
  | arr (xs : List Json)
  | obj (fs : List (String × Json))

mutual
/-- The tokens of the text of a JSON value. -/
def Json.toks : Json → List Tok
  | Json.null => [Tok.lit "null"]
  | Json.bool b => [Tok.lit (if b then "true" else "false")]
  | Json.int n => [Tok.int n]
  | Json.str s => [Tok.str s]
  | Json.double raw => [Tok.lit raw]
  | Json.arr xs => Tok.arrStart :: (toksArr xs ++ [Tok.arrEnd])
  | Json.obj fs => Tok.dictStart :: (toksObj fs ++ [Tok.dictEnd])
/-- The tokens of the elements of an array. -/
def toksArr : List Json → List Tok
  | [] => []
  | x :: xs => x.toks ++ toksArr xs
/-- The tokens of the fields of a dictionary. -/
def toksObj : List (String × Json) → List Tok
  | [] => []
  | (k, v) :: fs => Tok.key k :: (v.toks ++ toksObj fs)
end

/-- One element of the array `items` of a bulk response: a dictionary with one
entry, the verb, whose value is the status dictionary with the given
fields. -/
structure ItemResp where
  verb : String
  fields : List (String × Json)

/-- The JSON value of an item. -/
def ItemResp.toJson (it : ItemResp) : Json := Json.obj [(it.verb, Json.obj it.fields)]

/-- The tokens of a sequence of items. -/
def itemsToks : List ItemResp → List Tok
  | [] => []
  | it :: its => it.toJson.toks ++ itemsToks its

/-- A bulk response: a dictionary with the fields `before`, then the field
`items` with the given items, then the fields `after`. -/
def bulkResponse (before : List (String × Json)) (items : List ItemResp)
    (after : List (String × Json)) : Json :=
  Json.obj (before ++ (nameItems, Json.arr (items.map ItemResp.toJson)) :: after)

/-- The entries of a status dictionary that are named `status`. -/
def statusEntries (fields : List (String × Json)) : List (String × Json) :=
  fields.filter (fun p => decide (p.1 = nameStatus))

/-- Whether a JSON value is an integer. -/
def Json.isInt : Json → Bool
  | Json.int _ => true
  | _ => false

/-- Whether every field named `status` of a status dictionary holds an
integer. -/
def statusInts (fields : List (String × Json)) : Bool :=
  fields.all (fun p => decide (p.1 ≠ nameStatus) || p.2.isInt)

/-- The value of the local `status` of `itemStatusInner` after the fields of a
status dictionary whose `status` fields hold integers, starting from `s`. -/
def lastStatus : List (String × Json) → Int → Int
  | [], s => s
  | (k, Json.int n) :: fs, s => if k = nameStatus then lastStatus fs n else lastStatus fs s
  | _ :: fs, s => lastStatus fs s

/-- The status that `itemStatus` reports for an item whose `status` fields hold
integers: the last of them, or 0 when there is none or it is negative. -/
def ItemResp.status (it : ItemResp) : Int :=
  if lastStatus it.fields (-1) < 0 then 0 else lastStatus it.fields (-1)

/-- Whether a status asks for the event to be sent again: 429 or at least
500. -/
def retryable (status : Int) : Bool := decide (status = 429 ∨ 500 ≤ status)

/-- The events of a batch whose status, at the same position, asks for a new
attempt, in the order of the batch. -/
def retrySubset {α : Type} (events : List α) (statuses : List Int) : List α :=
  ((events.zip statuses).filter (fun p => retryable p.2)).map Prod.fst

/-- The items of the response of scenario S2 of the specification: statuses
201, 429 (with an error text) and 500. -/
def sampleItems : List ItemResp :=
  [ { verb := "index", fields := [("_id", Json.str "1"), ("status", Json.int 201)] },
    { verb := "index", fields := [("status", Json.int 429), ("error", Json.str "busy")] },
    { verb := "create", fields := [("status", Json.int 500)] } ]

/-! ## Elasticsearch client: publishing a batch -/

/-- The three `expvar` counters of `client.go`. A counter is modelled by its
mathematical value. -/
structure EsMetrics where
  ackedEvents : Int
  eventsNotAcked : Int
  publishEventsCallCount : Int
  deriving DecidableEq, Repr

/-- Length of a Go slice, where `none` is the nil slice. -/
def sliceLen {α : Type} : Option (List α) → Nat
  | none => 0
  | some l => l.length

/-- Counters before the sample calls. -/
def sampleMetrics : EsMetrics :=
  { ackedEvents := 10, eventsNotAcked := 2, publishEventsCallCount := 5 }

/-! ## Elasticsearch client: the connection -/

/-- Type `Connection`; `http` is the shared transport, which the model reaches
through the exchanges below. -/
structure Connection where
  URL : String
  Username : String
  Password : String
  connected : Bool
  deriving DecidableEq, Repr

/-- What becomes of one request of `execRequest`: `http.NewRequest` fails; or
`conn.http.Do` fails; or the server answers with a status code, a status line
and a body that `ioutil.ReadAll` either reads or fails to read. -/
inductive Exchange where
  | newRequestError (err : Err)
  | doError (err : Err)
  | response (status : Int) (statusLine : String) (body : Except Err (List Tok))

/-- Method `Connection.execRequest`: the connection after the call, the status,
the body and the error. -/
def Connection.execRequest (conn : Connection) :
    Exchange → Connection × Int × Option (List Tok) × Option Err
  | Exchange.newRequestError err => (conn, 0, none, some err)
  | Exchange.doError err => ({ conn with connected := false }, 0, none, some err)
  | Exchange.response status statusLine body =>
    if status ≥ 300 then
      ({ conn with connected := false }, status, none, some (Err.other statusLine))
    else
      match body with
      | Except.error err => ({ conn with connected := false }, status, none, some err)
      | Except.ok obj => (conn, status, some obj, none)

/-- Method `Connection.request`: `marshalled` tells whether `json.Marshal` of
the body succeeds (a nil body needs no encoding). -/
def Connection.request (conn : Connection) (marshalled : Bool) (x : Exchange) :
    Connection × Int × Option (List Tok) × Option Err :=
  if !marshalled then (conn, 0, none, some Err.ErrJSONEncodeFailed)
  else conn.execRequest x

/-- Method `Connection.Ping`; `x` is the exchange of its `HEAD` request. -/
def Connection.Ping (conn : Connection) (x : Exchange) : Connection × Bool × Option Err :=
  match conn.execRequest x with
  | (conn1, _, _, some err) => (conn1, false, some err)
  | (conn1, status, _, none) => (conn1, decide (status < 300), none)

/-- Method `Connection.Connect`: the connection after the call and the error. -/
def Connection.Connect (conn : Connection) (x : Exchange) : Connection × Option Err :=
  match conn.Ping x with
  | (conn1, reachable, err) =>
    let conn2 := { conn1 with connected := reachable }
    match err with
    | some e => (conn2, some e)
    | none => if !conn2.connected then (conn2, some Err.ErrNotConnected) else (conn2, none)

/-- Method `Client.PublishEvent`, from the call of `client.Index` on: `status`
and `err` are the status and the error that `client.Index` returns. -/
def PublishEvent (connected : Bool) (status : Int) (err : Option Err) : Option Err :=
  if !connected then some Err.ErrNotConnected
  else if err ≠ none ∧ err = some Err.ErrJSONEncodeFailed then none
  else if status = 0 then none
  else if status ≥ 500 ∨ status = 429 then err
  else if status ≥ 300 ∧ status < 500 then none
  else none

/-- A connection in the connected state. -/
def sampleConnection : Connection :=
  { URL := "http://localhost:9200", Username := "", Password := "", connected := true }

/-- A response whose first item has no field `status` and whose second item
has status 429. -/
def missingStatusResponse : Json :=
  bulkResponse []
    [ { verb := "index", fields := [("_id", Json.str "1")] },
      { verb := "index", fields := [("status", Json.int 429)] } ] []

/-- A response with one item, of status 500. -/
def oneVerbResponse : Json :=
  Json.obj [("items", Json.arr [Json.obj [("index", Json.obj [("status", Json.int 500)])]])]

/-- The same response with a second verb entry added to the item. -/
def twoVerbResponse : Json :=
  Json.obj [("items", Json.arr [Json.obj [("index", Json.obj [("status", Json.int 500)]),
    ("create", Json.obj [("status", Json.int 500)])]])]

/-- A response with two items, of status 500 and 201, and nothing else. -/
def plainResponseItems : List ItemResp :=
  [ { verb := "index", fields := [("status", Json.int 500)] },
    { verb := "index", fields := [("status", Json.int 201)] } ]

/-- The same two items with other verbs and with fields added to the status
dictionaries. -/
def decoratedResponseItems : List ItemResp :=
  [ { verb := "create",
      fields := [("_id", Json.str "1"), ("status", Json.int 500),
        ("error", Json.obj [("type", Json.str "busy"), ("shards", Json.arr [Json.int 1])])] },
    { verb := "delete", fields := [("status", Json.int 201), ("_version", Json.int 4)] } ]

/-- A response of two items, the first of status 500, the second with a string
under `status`. -/
def stringStatusResponse : Json :=
  bulkResponse []
    [ { verb := "index", fields := [("status", Json.int 500)] },
      { verb := "index", fields := [("status", Json.str "busy")] } ] []

/-- The same response with a field `_id` added to the status dictionary of the
second item. -/
def stringStatusResponseWithId : Json :=
  bulkResponse []
    [ { verb := "index", fields := [("status", Json.int 500)] },
      { verb := "index", fields := [("status", Json.str "busy"), ("_id", Json.str "2")] } ] []

/-- The one-item response with a second top-level field named `items`, an
empty array, added in front. -/
def twoItemsFieldsResponse : Json :=
  Json.obj [("items", Json.arr []),
    ("items", Json.arr [Json.obj [("index", Json.obj [("status", Json.int 500)])]])]

/-- The one-item response with a second field named `status` added to the
status dictionary. -/
def twoStatusFieldsResponse : Json :=
  Json.obj [("items", Json.arr [Json.obj [("index",
    Json.obj [("status", Json.int 500), ("status", Json.int 201)])]])]

/-! ## Elasticsearch client: the index name of an event -/

/-- Offset east of UTC, in seconds, of a location. -/
def Location.offset : Location → Int
  | Location.utc => 0
  | Location.zone _ offsetSeconds => offsetSeconds

/-- Seconds per day. -/
def secondsPerDay : Int := 86400

/-- Day number of a time in its location, counted from 1970-01-01: the instant
of a `Time` is taken in nanoseconds since 1970-01-01T00:00:00 UTC, shifted by
the offset of the location and cut into days. -/
def Time.localDay (t : Time) : Int :=
  (t.nanos / 1000000000 + t.loc.offset) / secondsPerDay

/-- The date of the proleptic Gregorian calendar, as year, month and day, of a
day counted from 1970-01-01; this is the date that the methods `Year`,
`Month` and `Day` of the Go library type `time.Time` report. -/
def civilFromDays (days : Int) : Int × Int × Int :=
  let z := days + 719468
  let era := z / 146097
  let doe := z - era * 146097
  let yoe := (doe - doe / 1460 + doe / 36524 - doe / 146096) / 365
  let doy := doe - (365 * yoe + yoe / 4 - yoe / 100)
  let mp := (5 * doy + 2) / 153
  let d := doy - (153 * mp + 2) / 5 + 1
  let m := if mp < 10 then mp + 3 else mp - 9
  let y := yoe + era * 400
  (if m ≤ 2 then y + 1 else y, m, d)

/-- Method `Time.Year`. -/
def Time.Year (t : Time) : Int := (civilFromDays t.localDay).1

/-- Method `Time.Month`, as the number of the month. -/
def Time.Month (t : Time) : Int := (civilFromDays t.localDay).2.1

/-- Method `Time.Day`. -/
def Time.Day (t : Time) : Int := (civilFromDays t.localDay).2.2

/-- The verb `%02d` of `fmt.Sprintf`: decimal digits, with a leading zero
for a number of one digit. -/
def sprintf02d (n : Int) : String :=
  if 0 ≤ n ∧ n < 10 then "0" ++ toString n else toString n

/-- The call `fmt.Sprintf("%s-%d.%02d.%02d", index, ts.Year(), ts.Month(),
ts.Day())` that both paths make. -/
def sprintfIndex (index : String) (ts : Time) : String :=
  index ++ "-" ++ toString ts.Year ++ "." ++ sprintf02d ts.Month ++ "." ++ sprintf02d ts.Day

/-- A value stored in a `common.MapStr`, as far as the client tells values
apart: a `common.Time`, a string, or anything else. -/
inductive Value where
  | time (t : Time)
  | str (s : String)
  | other (raw : String)
  deriving DecidableEq, Repr

/-- Type `common.MapStr`: the value stored under a key, if any. -/
abbrev MapStr := String → Option Value

/-- Type `bulkMetaIndex`. -/
structure bulkMetaIndex where
  Index : String
  DocType : String
  deriving DecidableEq, Repr

/-- Type `bulkMeta`. -/
structure bulkMeta where
  Index : bulkMetaIndex
  deriving DecidableEq, Repr

/-- Function `eventBulkMeta`; `none` stands for the panic of a type assertion
on `event["@timestamp"]` or on `event["type"]`. -/
def eventBulkMeta (index : String) (event : MapStr) : Option bulkMeta :=
  match event "@timestamp" with
  | some (Value.time t) =>
    let ts := t.UTC
    let index1 := sprintfIndex index ts
    match event "type" with
    | some (Value.str docType) => some { Index := { Index := index1, DocType := docType } }
    | _ => none
  | _ => none

/-- The first two arguments of the call `client.Index(index,
event["type"].(string), "", nil, event)` of `PublishEvent`, for a client whose
field `index` is `clientIndex`; `none` stands for the panic of a type
assertion. -/
def PublishEvent.indexArgs (clientIndex : String) (event : MapStr) : Option (String × String) :=
  match event "@timestamp" with
  | some (Value.time t) =>
    let ts := t
    let index := sprintfIndex clientIndex ts
    match event "type" with
    | some (Value.str docType) => some (index, docType)
    | _ => none
  | _ => none

/-- Method `Client.PublishEvent` as a whole: `callIndex` gives the status and
the error that `client.Index` returns for an index name, a document type and
an event; the outer `none` stands for a panic. -/
def PublishEvent.run (connected : Bool) (clientIndex : String)
    (callIndex : String → String → MapStr → Int × Option Err) (event : MapStr) :
    Option (Option Err) :=
  if !connected then some (some Err.ErrNotConnected)
  else
    match PublishEvent.indexArgs clientIndex event with
    | none => none
    | some (index, docType) =>
      match callIndex index docType event with
      | (status, err) => some (PublishEvent connected status err)

/-- An event of type `eventlog` with the given timestamp. -/
def eventAt (t : Time) : MapStr := fun key =>
  if key = "@timestamp" then some (Value.time t)
  else if key = "type" then some (Value.str "eventlog")
  else none

/-- The instant 2016-01-01T04:30:00 UTC shown five hours west of UTC, where
the date is still 2015-12-31. -/
def newYearsEve : Time :=
  { nanos := 1451622600 * 1000000000, loc := Location.zone "EST" (-18000) }

/-! ## Elasticsearch client: the bulk request of a batch -/

/-- What `PublishEvents` calls outside `client.go`: the error of
`client.startBulkRequest("", "", nil)`, if any; the error of
`requ.Send(meta, event)`, if any; and the result of `request.Flush()` on a
request that holds the given pairs of action header and event, either an error
or the raw response. -/
structure BulkEnv where
  startBulkRequest : Option Err
  send : bulkMeta → MapStr → Option Err
  flush : List (bulkMeta × MapStr) → Except Err (List Tok)

/-- The loop `for _, event := range events` of `bulkEncodePublishRequest`, with
`remaining = len(events) - i`. The slice `okEvents := events[:0]` shares the
backing array `buf` of `events` and has length `n`; `body` holds the pairs
added to the request. It returns `okEvents` and the request body, or `none`
when `eventBulkMeta` panics; an index out of range, which the loop does not
produce, counts as a panic too. -/
def bulkEncodeLoop (send : bulkMeta → MapStr → Option Err) (index : String) :
    Nat → Nat → List MapStr → Nat → List (bulkMeta × MapStr) →
      Option (List MapStr × List (bulkMeta × MapStr))
  | 0, _, buf, n, body => some (buf.take n, body)
  | remaining + 1, i, buf, n, body =>
    match buf[i]? with
    | none => none
    | some event =>
      match eventBulkMeta index event with
      | none => none
      | some bm =>
        match send bm event with
        | some _ => bulkEncodeLoop send index remaining (i + 1) buf n body
        | none =>
          bulkEncodeLoop send index remaining (i + 1) (buf.set n event) (n + 1)
            (body ++ [(bm, event)])

/-- Function `bulkEncodePublishRequest`: the events added to the request and
the request body, or `none` for a panic. -/
def bulkEncodePublishRequest (send : bulkMeta → MapStr → Option Err) (index : String)
    (events : List MapStr) : Option (List MapStr × List (bulkMeta × MapStr)) :=
  bulkEncodeLoop send index events.length 0 events 0 []

/-- How a call ends: it returns a value, it panics, or it has not returned when
the fuel of a loop runs out. -/
inductive Ending (β : Type) where
  | returned (value : β)
  | panicked
  | unfinished

/-- The course of one call of `PublishEvents`: the counters when the call ends
or stops, the body handed to `request.Flush()` when that call was made, and
the way the call ends; a returned value is the slice (`none` for nil) and the
error. -/
structure PublishRun where
  metrics : EsMetrics
  flushed : Option (List (bulkMeta × MapStr))
  ending : Ending (Option (List MapStr) × Option Err)

/-- Method `Client.PublishEvents`, for a client whose flag `connected` and whose
field `index` have the given values. -/
def PublishEvents (fuel : Nat) (env : BulkEnv) (connected : Bool) (index : String)
    (metrics : EsMetrics) (events : List MapStr) : PublishRun :=
  let m1 := { metrics with publishEventsCallCount := metrics.publishEventsCallCount + 1 }
  if !connected then
    { metrics := m1, flushed := none,
      ending := Ending.returned (some events, some Err.ErrNotConnected) }
  else
    match env.startBulkRequest with
    | some err =>
      { metrics := m1, flushed := none, ending := Ending.returned (some events, some err) }
    | none =>
      match bulkEncodePublishRequest env.send index events with
      | none => { metrics := m1, flushed := none, ending := Ending.panicked }
      | some (okEvents, body) =>
        if okEvents.length = 0 then
          { metrics := m1, flushed := none, ending := Ending.returned (none, none) }
        else
          match env.flush body with
          | Except.error err =>
            { metrics := m1, flushed := some body,
              ending := Ending.returned (some okEvents, some err) }
          | Except.ok raw =>
            match bulkCollectPublishFails fuel (jsonReader.init raw) okEvents with
            | none => { metrics := m1, flushed := some body, ending := Ending.unfinished }
            | some failed_events =>
              let m2 := { m1 with
                ackedEvents := m1.ackedEvents + ((okEvents.length : Int) - (sliceLen failed_events : Int))
                eventsNotAcked := m1.eventsNotAcked + (sliceLen failed_events : Int) }
              if sliceLen failed_events > 0 then
                { metrics := m2, flushed := some body,
                  ending := Ending.returned (failed_events, some Err.ErrTempBulkFailure) }
              else
                { metrics := m2, flushed := some body, ending := Ending.returned (none, none) }

/-- Whether the request accepts an event: `eventBulkMeta` gives its action
header and `requ.Send` returns no error. -/
def accepts (env : BulkEnv) (index : String) (event : MapStr) : Bool :=
  match eventBulkMeta index event with
  | some bm => (env.send bm event).isNone
  | none => false

/-- The events of a batch that the request accepts, in the order of the
batch. -/
def acceptedBatch (env : BulkEnv) (index : String) (events : List MapStr) : List MapStr :=
  events.filter (accepts env index)

/-- The body of the request for a batch: the accepted events, each with its
action header. -/
def requestBody (env : BulkEnv) (index : String) (events : List MapStr) :
    List (bulkMeta × MapStr) :=
  events.filterMap (fun event =>
    match eventBulkMeta index event with
    | some bm => if (env.send bm event).isNone then some (bm, event) else none
    | none => none)

/-- Whether every event of a batch is a document: it holds a `common.Time`
under `@timestamp` and a string under `type`, so that `eventBulkMeta` does not
panic. -/
def allDocuments (index : String) (events : List MapStr) : Bool :=
  events.all (fun event => (eventBulkMeta index event).isSome)

/-- An environment in which every event is accepted and the server answers with
the response of scenario S2. -/
def sampleBulkEnv : BulkEnv :=
  { startBulkRequest := none
    send := fun _ _ => none
    flush := fun _ =>
      Except.ok (bulkResponse [("took", Json.int 3)] sampleItems [("errors", Json.bool true)]).toks }

/-- The instant 2016-01-01T04:30:00 UTC and the two seconds after it. -/
def sampleTime (k : Int) : Time :=
  { nanos := (1451622600 + k) * 1000000000, loc := Location.utc }

/-- A batch of three documents. -/
def sampleBatch : List MapStr := [eventAt (sampleTime 0), eventAt (sampleTime 1), eventAt (sampleTime 2)]

/-- Responses on which the scan meets a parse error before it reads an item:
the first entity does not open a dictionary; or the top-level dictionary
closes without a field `items`; or the value of `items` does not open an
array. -/
def malformedBeforeItems (raw : List Tok) : Prop :=
  (jsonReader.init raw).expectDict.2 ≠ none
    ∨ (∃ before rest, (∀ p ∈ before, p.1 ≠ nameItems)
        ∧ raw = Tok.dictStart :: (toksObj before ++ Tok.dictEnd :: rest))
    ∨ (∃ before rest, (∀ p ∈ before, p.1 ≠ nameItems)
        ∧ raw = Tok.dictStart :: (toksObj before ++ Tok.key nameItems :: rest)
        ∧ (jsonReader.expectArray ⟨rest⟩).2 ≠ none)

/-- A response cut off behind its first item, which has status 500: neither
the array `items` nor the top-level dictionary is closed. -/
def truncatedResponse : List Tok :=
  Tok.dictStart :: Tok.key nameItems :: Tok.arrStart ::
    (ItemResp.toJson { verb := "index", fields := [("status", Json.int 500)] }).toks

/-- An environment in which every event is accepted and the server answers with
the truncated response. -/
def truncatedEnv : BulkEnv :=
  { startBulkRequest := none, send := fun _ _ => none, flush := fun _ => Except.ok truncatedResponse }

/-- An environment in which `startBulkRequest` fails. -/
def failingStartEnv : BulkEnv :=
  { startBulkRequest := some (Err.other "invalid path"), send := fun _ _ => none,
    flush := fun _ => Except.ok [] }

/-- An event of type `eventlog` without the field `@timestamp`. -/
def eventWithoutTimestamp : MapStr := fun key =>
  if key = "type" then some (Value.str "eventlog") else none

/-- A response cut off inside the status dictionary of its first item, behind
the field `status`. -/
def cutInsideStatusResponse : List Tok :=
  [Tok.dictStart, Tok.key nameItems, Tok.arrStart, Tok.dictStart, Tok.key "index",
    Tok.dictStart, Tok.key nameStatus, Tok.int 500]

/-- An environment in which every event is accepted and the server answers with
the response cut off inside a status dictionary. -/
def cutInsideStatusEnv : BulkEnv :=
  { startBulkRequest := none, send := fun _ _ => none,
    flush := fun _ => Except.ok cutInsideStatusResponse }

/-! ## Properties of the worker loop -/

theorem filterEvents_fst {ρ α : Type} (env : WorkerEnv ρ α) (ignoreOlder : Int)
    (records : List (Record ρ)) (i : Nat) (events : List α) (ignored : ExpvarMap) :
    (filterEvents env ignoreOlder records i events ignored).1 =
      events ++ (keptRecords env ignoreOlder records i).map (fun p => env.toMapStr p.2) := by
  induction records generalizing i events ignored with
  | nil => simp [filterEvents, keptRecords]
  | cons lr rest ih =>
    unfold filterEvents
    by_cases h : ignoreOlderDrops ignoreOlder (env.now i) lr = true
    · rw [if_pos h, ih]
      simp [keptRecords, List.enumFrom_cons, List.filter_cons, h]
    · rw [if_neg h, ih]
      simp [keptRecords, List.enumFrom_cons, List.filter_cons, h]

theorem filterEvents_snd {ρ α : Type} (env : WorkerEnv ρ α) (ignoreOlder : Int)
    (records : List (Record ρ)) (i : Nat) (events : List α) (ignored : ExpvarMap)
    (k : String) :
    (filterEvents env ignoreOlder records i events ignored).2 k =
      ignored k
        + (if k = "total" then ((droppedRecords env ignoreOlder records i).length : Int) else 0)
        + (if k = env.name then ((droppedRecords env ignoreOlder records i).length : Int) else 0) := by
  induction records generalizing i events ignored with
  | nil => simp [filterEvents, droppedRecords]
  | cons lr rest ih =>
    unfold filterEvents
    by_cases h : ignoreOlderDrops ignoreOlder (env.now i) lr = true
    · rw [if_pos h, ih]
      have hd : (droppedRecords env ignoreOlder (lr :: rest) i).length
          = (droppedRecords env ignoreOlder rest (i + 1)).length + 1 := by
        simp [droppedRecords, List.enumFrom_cons, List.filter_cons, h]
      rw [hd]
      simp only [ExpvarMap.Add]
      split_ifs <;> push_cast <;> ring
    · rw [if_neg h, ih]
      have hd : (droppedRecords env ignoreOlder (lr :: rest) i).length
          = (droppedRecords env ignoreOlder rest (i + 1)).length := by
        simp [droppedRecords, List.enumFrom_cons, List.filter_cons, h]
      rw [hd]

theorem kept_add_dropped {ρ α : Type} (env : WorkerEnv ρ α) (ignoreOlder : Int)
    (records : List (Record ρ)) (i : Nat) :
    (keptRecords env ignoreOlder records i).length
      + (droppedRecords env ignoreOlder records i).length = records.length := by
  induction records generalizing i with
  | nil => simp [keptRecords, droppedRecords]
  | cons lr rest ih =>
    have := ih (i + 1)
    by_cases h : ignoreOlderDrops ignoreOlder (env.now i) lr = true
    · simp [keptRecords, droppedRecords, List.enumFrom_cons, List.filter_cons, h] at this ⊢
      omega
    · simp [keptRecords, droppedRecords, List.enumFrom_cons, List.filter_cons, h] at this ⊢
      omega

theorem keptRecords_zero {ρ α : Type} (env : WorkerEnv ρ α)
    (records : List (Record ρ)) (i : Nat) :
    (keptRecords env 0 records i).map (fun p => env.toMapStr p.2) = records.map env.toMapStr := by
  induction records generalizing i with
  | nil => simp [keptRecords]
  | cons lr rest ih =>
    have := ih (i + 1)
    simp [keptRecords, ignoreOlderDrops, List.enumFrom_cons] at this ⊢
    exact this

theorem processEventLogStep_nonempty {ρ α : Type} (env : WorkerEnv ρ α) (ignoreOlder : Int)
    (st : WorkerState α) (records : List (Record ρ)) (last : Record ρ)
    (hlast : records.getLast? = some last) :
    (processEventLogStep env ignoreOlder false (some records) st).1 =
      { publishedEvents :=
          if env.publish ((keptRecords env ignoreOlder records 0).map (fun p => env.toMapStr p.2))
          then (st.publishedEvents.Add "total"
                  ((keptRecords env ignoreOlder records 0).length : Int)).Add env.name
                  ((keptRecords env ignoreOlder records 0).length : Int)
          else st.publishedEvents.Add "failures" 1
        ignoredEvents := (filterEvents env ignoreOlder records 0 [] st.ignoredEvents).2
        persisted := st.persisted ++
          [{ name := env.name, recordNumber := last.RecordNumber, ts := last.TimeGenerated.UTC }]
        submitted := st.submitted ++
          [(keptRecords env ignoreOlder records 0).map (fun p => env.toMapStr p.2)] } := by
  have h1 := filterEvents_fst env ignoreOlder records 0 [] st.ignoredEvents
  simp only [List.nil_append] at h1
  simp only [processEventLogStep, hlast, Bool.false_eq_true, if_false, h1, List.length_map]

/-- Claim C1, as the code has it: in every iteration of the worker loop whose
read returned a non-empty list of records, `checkpoint.Persist` is called
exactly once, with the source name and the record number and UTC generation
time of the last record read, whether `PublishEvents` reported success or
failure; a failed publish adds 1 to `publishedEvents.failures` and changes no
other published counter. -/
theorem C1_persist_regardless_of_publish {ρ α : Type} (env : WorkerEnv ρ α)
    (ignoreOlder : Int) (st : WorkerState α) (records : List (Record ρ)) (last : Record ρ)
    (hlast : records.getLast? = some last) :
    (processEventLogStep env ignoreOlder false (some records) st).1.persisted =
        st.persisted ++
          [{ name := env.name, recordNumber := last.RecordNumber, ts := last.TimeGenerated.UTC }]
      ∧ (env.publish ((keptRecords env ignoreOlder records 0).map (fun p => env.toMapStr p.2)) = false →
          (processEventLogStep env ignoreOlder false (some records) st).1.publishedEvents =
            st.publishedEvents.Add "failures" 1) := by
  rw [processEventLogStep_nonempty env ignoreOlder st records last hlast]
  refine ⟨rfl, ?_⟩
  intro hfail
  simp [hfail]

/-- Claim C1 at a concrete read of one record with no filter. -/
theorem C1_persist_regardless_of_publish_witness :
    (processEventLogStep (failingEnv "Application") 0 false
        (some [sampleRecord 7 50]) freshWorker).1.persisted =
        freshWorker.persisted ++
          [{ name := (failingEnv "Application").name,
             recordNumber := (sampleRecord 7 50).RecordNumber,
             ts := (sampleRecord 7 50).TimeGenerated.UTC }]
      ∧ ((failingEnv "Application").publish
            ((keptRecords (failingEnv "Application") 0 [sampleRecord 7 50] 0).map
              (fun p => (failingEnv "Application").toMapStr p.2)) = false →
          (processEventLogStep (failingEnv "Application") 0 false
              (some [sampleRecord 7 50]) freshWorker).1.publishedEvents =
            freshWorker.publishedEvents.Add "failures" 1) :=
  C1_persist_regardless_of_publish (failingEnv "Application") 0 freshWorker
    [sampleRecord 7 50] (sampleRecord 7 50) rfl

/-- Claim C1 fails as stated: a read of one record whose publish reports failure
still ends with a call of `checkpoint.Persist`, so the cursor moves. -/
theorem C1_counterexample :
    (failingEnv "Application").publish [7] = false
      ∧ (processEventLogStep (failingEnv "Application") 0 false
          (some [sampleRecord 7 50]) freshWorker).1.submitted = [[7]]
      ∧ freshWorker.persisted = []
      ∧ (processEventLogStep (failingEnv "Application") 0 false
          (some [sampleRecord 7 50]) freshWorker).1.persisted =
          [{ name := "Application", recordNumber := 7, ts := ⟨50, Location.utc⟩ }] := by
  refine ⟨rfl, ?_, rfl, ?_⟩ <;> decide

/-- Claim C9, for a source whose name is not the reserved key `total`: one
iteration over a non-empty read of `n` records submits exactly the rendered
documents, in read order, of the records that are not older than
`ignoreOlder` (all of them when `ignoreOlder` is 0); `ignoredEvents.total` and
the source's `ignoredEvents` counter each grow by the number `d` of dropped
records; after a successful publish `publishedEvents.total` and the source's
`publishedEvents` counter each grow by `n - d`; and the cursor is persisted at
the record number and UTC generation time of the last record read. -/
theorem C9_iteration_effect {ρ α : Type} (env : WorkerEnv ρ α) (ignoreOlder : Int)
    (st : WorkerState α) (records : List (Record ρ)) (last : Record ρ)
    (hlast : records.getLast? = some last) (hname : env.name ≠ "total") :
    (processEventLogStep env ignoreOlder false (some records) st).1.submitted =
        st.submitted ++ [(keptRecords env ignoreOlder records 0).map (fun p => env.toMapStr p.2)]
      ∧ (ignoreOlder = 0 →
          (keptRecords env ignoreOlder records 0).map (fun p => env.toMapStr p.2)
            = records.map env.toMapStr)
      ∧ (processEventLogStep env ignoreOlder false (some records) st).1.ignoredEvents "total" =
          st.ignoredEvents "total" + ((droppedRecords env ignoreOlder records 0).length : Int)
      ∧ (processEventLogStep env ignoreOlder false (some records) st).1.ignoredEvents env.name =
          st.ignoredEvents env.name + ((droppedRecords env ignoreOlder records 0).length : Int)
      ∧ (env.publish ((keptRecords env ignoreOlder records 0).map (fun p => env.toMapStr p.2)) = true →
          (processEventLogStep env ignoreOlder false (some records) st).1.publishedEvents "total" =
              st.publishedEvents "total"
                + ((records.length : Int) - ((droppedRecords env ignoreOlder records 0).length : Int))
            ∧ (processEventLogStep env ignoreOlder false (some records) st).1.publishedEvents env.name =
              st.publishedEvents env.name
                + ((records.length : Int) - ((droppedRecords env ignoreOlder records 0).length : Int)))
      ∧ (processEventLogStep env ignoreOlder false (some records) st).1.persisted =
          st.persisted ++
            [{ name := env.name, recordNumber := last.RecordNumber,
               ts := last.TimeGenerated.UTC }] := by
  rw [processEventLogStep_nonempty env ignoreOlder st records last hlast]
  have hsum := kept_add_dropped env ignoreOlder records 0
  have hne : ¬ ("total" = env.name) := fun h => hname h.symm
  refine ⟨rfl, ?_, ?_, ?_, ?_, rfl⟩
  · intro h0
    subst h0
    exact keptRecords_zero env records 0
  · simp only [filterEvents_snd]
    simp [hne]
  · simp only [filterEvents_snd]
    simp [hname]
  · intro hok
    simp only [hok, if_true, ExpvarMap.Add]
    simp only [hname, hne, if_true, if_false]
    constructor <;> omega

/-- Claim C9 at a read of two records of the source `Security`, the first of
them older than the limit of 10 nanoseconds. -/
theorem C9_iteration_effect_witness :
    (processEventLogStep (acceptingEnv "Security") 10 false
        (some [sampleRecord 1 50, sampleRecord 2 95]) freshWorker).1.submitted = [[2]]
      ∧ (processEventLogStep (acceptingEnv "Security") 10 false
        (some [sampleRecord 1 50, sampleRecord 2 95]) freshWorker).1.ignoredEvents "Security" = 1
      ∧ (processEventLogStep (acceptingEnv "Security") 10 false
        (some [sampleRecord 1 50, sampleRecord 2 95]) freshWorker).1.persisted =
          [{ name := "Security", recordNumber := 2, ts := ⟨95, Location.utc⟩ }] := by
  have h := C9_iteration_effect (acceptingEnv "Security") 10 freshWorker
    [sampleRecord 1 50, sampleRecord 2 95] (sampleRecord 2 95) rfl (by decide)
  exact ⟨h.1.trans (by decide), h.2.2.2.1.trans (by decide), h.2.2.2.2.2⟩

/-- Claim C9 fails as stated for a source named `total`: its per-source counter
is the counter `ignoredEvents.total` itself, which one dropped record raises
by 2, and likewise `publishedEvents.total` rises by 2 for one published
record. -/
theorem C9_counterexample :
    (droppedRecords (acceptingEnv "total") 10 [sampleRecord 1 50, sampleRecord 2 95] 0).length = 1
      ∧ freshWorker.ignoredEvents "total" = 0
      ∧ (processEventLogStep (acceptingEnv "total") 10 false
          (some [sampleRecord 1 50, sampleRecord 2 95]) freshWorker).1.ignoredEvents "total" = 2
      ∧ freshWorker.publishedEvents "total" = 0
      ∧ (processEventLogStep (acceptingEnv "total") 10 false
          (some [sampleRecord 1 50, sampleRecord 2 95]) freshWorker).1.publishedEvents "total" = 2 := by
  refine ⟨?_, rfl, ?_, rfl, ?_⟩ <;> decide

/-! ## The reader on well-formed input -/

mutual
theorem skipValue_json (v : Json) (d : Nat) (acc rest : List Tok) (hd : 0 < d) :
    skipValue d acc (v.toks ++ rest) = skipValue d (acc ++ v.toks) rest := by
  match v with
  | Json.null => obtain ⟨d, rfl⟩ := Nat.exists_eq_succ_of_ne_zero (Nat.pos_iff_ne_zero.mp hd); simp [Json.toks, skipValue]
  | Json.bool b => obtain ⟨d, rfl⟩ := Nat.exists_eq_succ_of_ne_zero (Nat.pos_iff_ne_zero.mp hd); simp [Json.toks, skipValue]
  | Json.int n => obtain ⟨d, rfl⟩ := Nat.exists_eq_succ_of_ne_zero (Nat.pos_iff_ne_zero.mp hd); simp [Json.toks, skipValue]
  | Json.str s => obtain ⟨d, rfl⟩ := Nat.exists_eq_succ_of_ne_zero (Nat.pos_iff_ne_zero.mp hd); simp [Json.toks, skipValue]
  | Json.double s => obtain ⟨d, rfl⟩ := Nat.exists_eq_succ_of_ne_zero (Nat.pos_iff_ne_zero.mp hd); simp [Json.toks, skipValue]
  | Json.arr xs =>
    have h := skipValue_arr xs (d + 1) (acc ++ [Tok.arrStart]) (Tok.arrEnd :: rest) (Nat.succ_pos d)
    simp only [Json.toks, List.cons_append, List.append_assoc, List.singleton_append, skipValue,
      List.append_eq, List.nil_append]
    rw [h]
    have hd1 : ¬ (d + 1 ≤ 1) := by omega
    simp [skipValue, hd1]
  | Json.obj fs =>
    have h := skipValue_obj fs (d + 1) (acc ++ [Tok.dictStart]) (Tok.dictEnd :: rest) (Nat.succ_pos d)
    simp only [Json.toks, List.cons_append, List.append_assoc, List.singleton_append, skipValue,
      List.append_eq, List.nil_append]
    rw [h]
    have hd1 : ¬ (d + 1 ≤ 1) := by omega
    simp [skipValue, hd1]
theorem skipValue_arr (xs : List Json) (d : Nat) (acc rest : List Tok) (hd : 0 < d) :
    skipValue d acc (toksArr xs ++ rest) = skipValue d (acc ++ toksArr xs) rest := by
  match xs with
  | [] => simp [toksArr]
  | x :: xs =>
    simp only [toksArr, List.append_assoc]
    rw [skipValue_json x d acc _ hd, skipValue_arr xs d _ rest hd]
    simp
theorem skipValue_obj (fs : List (String × Json)) (d : Nat) (acc rest : List Tok) (hd : 0 < d) :
    skipValue d acc (toksObj fs ++ rest) = skipValue d (acc ++ toksObj fs) rest := by
  match fs with
  | [] => simp [toksObj]
  | (k, v) :: fs =>
    have hd0 : d ≠ 0 := by omega
    simp only [toksObj, List.cons_append, List.append_assoc, skipValue, hd0, if_false,
      List.append_eq]
    rw [skipValue_json v d _ _ hd, skipValue_obj fs d _ rest hd]
    simp
end

theorem step_cons (t : Tok) (ts : List Tok) :
    jsonReader.step ⟨t :: ts⟩ = (⟨ts⟩, t.entity, some t, none) := rfl

theorem nextFieldName_key (k : String) (ts : List Tok) :
    jsonReader.nextFieldName ⟨Tok.key k :: ts⟩ = (⟨ts⟩, Entity.mapKeyEntity, some k, none) := rfl

theorem nextFieldName_dictEnd (ts : List Tok) :
    jsonReader.nextFieldName ⟨Tok.dictEnd :: ts⟩ = (⟨ts⟩, Entity.dictEnd, none, none) := rfl

theorem expectDict_dictStart (ts : List Tok) :
    jsonReader.expectDict ⟨Tok.dictStart :: ts⟩ = (⟨ts⟩, none) := rfl

theorem expectArray_arrStart (ts : List Tok) :
    jsonReader.expectArray ⟨Tok.arrStart :: ts⟩ = (⟨ts⟩, none) := rfl

theorem nextInt_int (v : Int) (ts : List Tok) :
    jsonReader.nextInt ⟨Tok.int v :: ts⟩ = (⟨ts⟩, v, none) := rfl

theorem skipValue_zero (v : Json) (rest : List Tok) :
    skipValue 0 [] (v.toks ++ rest) = some (v.toks, rest) := by
  match v with
  | Json.null => simp [Json.toks, skipValue]
  | Json.bool b => simp [Json.toks, skipValue]
  | Json.int n => simp [Json.toks, skipValue]
  | Json.str s => simp [Json.toks, skipValue]
  | Json.double s => simp [Json.toks, skipValue]
  | Json.arr xs =>
    have h := skipValue_arr xs 1 [Tok.arrStart] (Tok.arrEnd :: rest) Nat.one_pos
    simp only [Json.toks, List.cons_append, List.append_assoc, List.singleton_append, skipValue,
      List.append_eq, List.nil_append]
    rw [h]
    simp [skipValue]
  | Json.obj fs =>
    have h := skipValue_obj fs 1 [Tok.dictStart] (Tok.dictEnd :: rest) Nat.one_pos
    simp only [Json.toks, List.cons_append, List.append_assoc, List.singleton_append, skipValue,
      List.append_eq, List.nil_append]
    rw [h]
    simp [skipValue]

theorem ignoreNext_json (v : Json) (rest : List Tok) :
    jsonReader.ignoreNext ⟨v.toks ++ rest⟩ = (⟨rest⟩, some v.toks, none) := by
  simp [jsonReader.ignoreNext, skipValue_zero]

theorem toksObj_append (fs gs : List (String × Json)) :
    toksObj (fs ++ gs) = toksObj fs ++ toksObj gs := by
  induction fs with
  | nil => simp [toksObj]
  | cons p fs ih =>
    obtain ⟨k, v⟩ := p
    simp [toksObj, ih]

theorem toksArr_map_toJson (items : List ItemResp) :
    toksArr (items.map ItemResp.toJson) = itemsToks items := by
  induction items with
  | nil => simp [toksArr, itemsToks]
  | cons it its ih => simp [toksArr, itemsToks, ih]

theorem toJson_toks (it : ItemResp) :
    it.toJson.toks =
      Tok.dictStart :: Tok.key it.verb :: Tok.dictStart ::
        (toksObj it.fields ++ [Tok.dictEnd, Tok.dictEnd]) := by
  simp [ItemResp.toJson, Json.toks, toksObj]

theorem bulkResponse_toks (before : List (String × Json)) (items : List ItemResp)
    (after : List (String × Json)) :
    (bulkResponse before items after).toks =
      Tok.dictStart :: (toksObj before ++ Tok.key nameItems :: Tok.arrStart ::
        (itemsToks items ++ Tok.arrEnd :: (toksObj after ++ [Tok.dictEnd]))) := by
  simp [bulkResponse, Json.toks, toksObj_append, toksObj, toksArr_map_toJson]

theorem length_le_toksObj (fs : List (String × Json)) : fs.length ≤ (toksObj fs).length := by
  induction fs with
  | nil => simp
  | cons p fs ih =>
    obtain ⟨k, v⟩ := p
    simp [toksObj]
    omega

theorem findItems_fields (before : List (String × Json)) (rest : List Tok) (fuel : Nat)
    (hkeys : ∀ p ∈ before, p.1 ≠ nameItems) (hfuel : before.length < fuel) :
    findItems fuel ⟨toksObj before ++ Tok.key nameItems :: rest⟩ = some (some ⟨rest⟩) := by
  induction before generalizing fuel with
  | nil =>
    obtain ⟨fuel, rfl⟩ := Nat.exists_eq_succ_of_ne_zero (Nat.pos_iff_ne_zero.mp hfuel)
    simp [toksObj, findItems, nextFieldName_key]
  | cons p fs ih =>
    obtain ⟨k, v⟩ := p
    obtain ⟨fuel, rfl⟩ := Nat.exists_eq_succ_of_ne_zero (Nat.pos_iff_ne_zero.mp (Nat.lt_of_le_of_lt (Nat.zero_le _) hfuel))
    have hk : k ≠ nameItems := hkeys (k, v) (List.mem_cons_self _ _)
    have hrec := ih fuel (fun p hp => hkeys p (List.mem_cons_of_mem _ hp))
      (by simp at hfuel; omega)
    simp only [toksObj, List.cons_append, List.append_assoc, findItems, nextFieldName_key]
    simp [hk, ignoreNext_json, hrec]

theorem lastStatus_cons_ne (k : String) (v : Json) (fs : List (String × Json)) (s : Int)
    (hk : k ≠ nameStatus) : lastStatus ((k, v) :: fs) s = lastStatus fs s := by
  cases v <;> simp [lastStatus, hk]

theorem itemStatusInnerLoop_fields (fields : List (String × Json)) (rest : List Tok)
    (fuel : Nat) (status : Int) (msg : Option (List Tok))
    (hints : statusInts fields = true) (hfuel : fields.length < fuel) :
    ∃ msg1, itemStatusInnerLoop fuel ⟨toksObj fields ++ Tok.dictEnd :: rest⟩ status msg =
      some (⟨rest⟩,
        if lastStatus fields status < 0 then (0, none, some Err.errExpectedStatusCode)
        else (lastStatus fields status, msg1, none)) := by
  induction fields generalizing fuel status msg with
  | nil =>
    obtain ⟨fuel, rfl⟩ := Nat.exists_eq_succ_of_ne_zero (Nat.pos_iff_ne_zero.mp hfuel)
    refine ⟨msg, ?_⟩
    simp only [toksObj, List.nil_append, itemStatusInnerLoop, nextFieldName_dictEnd, lastStatus]
    split_ifs <;> simp_all
  | cons p fs ih =>
    obtain ⟨k, v⟩ := p
    obtain ⟨fuel, rfl⟩ := Nat.exists_eq_succ_of_ne_zero (Nat.pos_iff_ne_zero.mp (Nat.lt_of_le_of_lt (Nat.zero_le _) hfuel))
    have hfs : statusInts fs = true := by
      simp [statusInts] at hints ⊢
      exact hints.2
    have hfuel1 : fs.length < fuel := by simp at hfuel; omega
    by_cases hk : k = nameStatus
    · subst hk
      have hv : v.isInt = true := by
        simp [statusInts] at hints
        exact hints.1
      cases v <;> simp [Json.isInt] at hv
      rename_i n
      obtain ⟨msg1, h1⟩ := ih fuel n msg hfs hfuel1
      refine ⟨msg1, ?_⟩
      simp only [toksObj, Json.toks, List.cons_append, List.append_assoc, List.singleton_append,
        itemStatusInnerLoop, nextFieldName_key, nextInt_int, lastStatus, List.nil_append]
      simpa using h1
    · rw [lastStatus_cons_ne k v fs status hk]
      by_cases he : k = nameError
      · obtain ⟨msg1, h1⟩ := ih fuel status (some v.toks) hfs hfuel1
        refine ⟨msg1, ?_⟩
        simp only [toksObj, List.cons_append, List.append_assoc, itemStatusInnerLoop,
          nextFieldName_key]
        simpa [hk, he, ignoreNext_json] using h1
      · obtain ⟨msg1, h1⟩ := ih fuel status msg hfs hfuel1
        refine ⟨msg1, ?_⟩
        simp only [toksObj, List.cons_append, List.append_assoc, itemStatusInnerLoop,
          nextFieldName_key]
        simpa [hk, he, ignoreNext_json] using h1

/-- The loop of `itemStatusInner` does not end when the input ends inside a
status dictionary: `nextFieldName` fails, the error is only logged, and the
next pass finds the reader where it was. -/
theorem itemStatusInnerLoop_end_of_input (fuel : Nat) (status : Int)
    (msg : Option (List Tok)) : itemStatusInnerLoop fuel ⟨[]⟩ status msg = none := by
  induction fuel with
  | zero => rfl
  | succ fuel ih =>
    simp only [itemStatusInnerLoop, jsonReader.nextFieldName, jsonReader.step]
    simpa [jsonReader.ignoreNext, skipValue] using ih

theorem itemStatus_item (it : ItemResp) (rest : List Tok) (fuel : Nat)
    (hints : statusInts it.fields = true) (hfuel : it.fields.length < fuel) :
    ∃ msg, itemStatus fuel ⟨it.toJson.toks ++ rest⟩ = some (⟨rest⟩, it.status, msg, none) := by
  obtain ⟨msg1, h1⟩ := itemStatusInnerLoop_fields it.fields (Tok.dictEnd :: rest) fuel (-1) none
    hints hfuel
  by_cases hneg : lastStatus it.fields (-1) < 0
  · refine ⟨none, ?_⟩
    rw [if_pos hneg] at h1
    simp only [toJson_toks, List.cons_append, List.append_assoc, itemStatus, expectDict_dictStart,
      nextFieldName_key, itemStatusInner, ItemResp.status, if_pos hneg]
    simp [h1, step_cons, Tok.entity]
  · refine ⟨msg1, ?_⟩
    rw [if_neg hneg] at h1
    simp only [toJson_toks, List.cons_append, List.append_assoc, itemStatus, expectDict_dictStart,
      nextFieldName_key, itemStatusInner, ItemResp.status, if_neg hneg]
    simp [h1, step_cons, Tok.entity]

theorem take_set_succ {α : Type} (buf : List α) (n : Nat) (e : α) (h : n < buf.length) :
    (buf.set n e).take (n + 1) = buf.take n ++ [e] := by
  induction buf generalizing n with
  | nil => simp at h
  | cons b bs ih =>
    cases n with
    | zero => simp
    | succ n =>
      simp only [List.length_cons, Nat.add_lt_add_iff_right] at h
      simp [ih n h]

theorem retrySubset_cons {α : Type} (e : α) (es : List α) (s : Int) (ss : List Int) :
    retrySubset (e :: es) (s :: ss) =
      if retryable s then e :: retrySubset es ss else retrySubset es ss := by
  by_cases h : retryable s = true <;> simp [retrySubset, List.filter_cons, h]

theorem retryable_iff (s : Int) :
    retryable s = true ↔ ¬ (s < 300) ∧ ¬ (s < 500 ∧ s ≠ 429) := by
  simp only [retryable, decide_eq_true_eq]
  omega

theorem collectLoop_items {α : Type} (fuel : Nat) (rest : List Tok) (remaining : Nat) :
    ∀ (its : List ItemResp) (i : Nat) (buf : List α) (n : Nat),
      (∀ it ∈ its, statusInts it.fields = true ∧ it.fields.length < fuel) →
      n ≤ i → (buf.drop i).length = remaining → remaining ≤ its.length →
      collectLoop fuel remaining i ⟨itemsToks its ++ rest⟩ buf n =
        some (some (buf.take n ++ retrySubset (buf.drop i) (its.map ItemResp.status))) := by
  induction remaining with
  | zero =>
    intro its i buf n _ _ hlen _
    have hnil : buf.drop i = [] := List.length_eq_zero.mp hlen
    simp [collectLoop, hnil, retrySubset]
  | succ k ih =>
    intro its i buf n hitems hni hlen hle
    cases its with
    | nil => simp at hle
    | cons it its =>
      have hit := hitems it (List.mem_cons_self _ _)
      obtain ⟨msg, hst⟩ := itemStatus_item it (itemsToks its ++ rest) fuel hit.1 hit.2
      have hitems1 : ∀ it1 ∈ its, statusInts it1.fields = true ∧ it1.fields.length < fuel :=
        fun it1 h1 => hitems it1 (List.mem_cons_of_mem _ h1)
      have hile : i < buf.length := by
        simp only [List.length_drop] at hlen
        omega
      have hdrop : buf.drop i = buf[i] :: buf.drop (i + 1) := List.drop_eq_getElem_cons hile
      have hget : buf[i]? = some buf[i] := List.getElem?_eq_getElem hile
      have hlen1 : (buf.drop (i + 1)).length = k := by
        simp only [List.length_drop] at hlen ⊢
        omega
      have hle1 : k ≤ its.length := by
        simp only [List.length_cons] at hle
        omega
      simp only [itemsToks, List.append_assoc, collectLoop, hst, List.map_cons, hdrop,
        retrySubset_cons]
      by_cases hr : retryable it.status = true
      · have hr1 := (retryable_iff it.status).mp hr
        rw [if_neg hr1.1, if_neg hr1.2, if_pos hr, hget]
        simp only
        have hset : ((buf.set n buf[i]).drop (i + 1)).length = k := by
          rw [List.drop_set_of_lt _ _ (by omega)]
          exact hlen1
        rw [ih its (i + 1) (buf.set n buf[i]) (n + 1) hitems1 (by omega) hset hle1]
        rw [take_set_succ buf n buf[i] (by omega), List.drop_set_of_lt _ _ (by omega)]
        simp
      · have hr0 : retryable it.status = false := by simpa using hr
        have hr1 : it.status < 300 ∨ (it.status < 500 ∧ it.status ≠ 429) := by
          by_contra hcon
          exact hr ((retryable_iff it.status).mpr ⟨fun h => hcon (Or.inl h), fun h => hcon (Or.inr h)⟩)
        rw [hr0]
        simp only [Bool.false_eq_true, if_false]
        by_cases h300 : it.status < 300
        · rw [if_pos h300]
          exact ih its (i + 1) buf n hitems1 (by omega) hlen1 hle1
        · rw [if_neg h300, if_pos (hr1.resolve_left h300)]
          exact ih its (i + 1) buf n hitems1 (by omega) hlen1 hle1

/-- The scanner on a response whose first items are well formed: it returns
the events whose item status asks for a new attempt, whatever follows the
items. -/
theorem bulkCollectPublishFails_items {α : Type} (fuel : Nat) (events : List α)
    (before : List (String × Json)) (items : List ItemResp) (rest : List Tok)
    (hkeys : ∀ p ∈ before, p.1 ≠ nameItems)
    (hfuel : before.length < fuel)
    (hitems : ∀ it ∈ items, statusInts it.fields = true ∧ it.fields.length < fuel)
    (hlen : events.length ≤ items.length) :
    bulkCollectPublishFails fuel
        ⟨Tok.dictStart :: (toksObj before ++ Tok.key nameItems :: Tok.arrStart ::
          (itemsToks items ++ rest))⟩ events =
      some (some (retrySubset events (items.map ItemResp.status))) := by
  have h := collectLoop_items fuel rest events.length items 0 events 0 hitems (le_refl 0)
    (by simp) hlen
  simp only [bulkCollectPublishFails, expectDict_dictStart,
    findItems_fields before _ fuel hkeys hfuel, expectArray_arrStart, h]
  simp

theorem statusEntries_cons (k : String) (v : Json) (fs : List (String × Json)) :
    statusEntries ((k, v) :: fs) =
      if k = nameStatus then (k, v) :: statusEntries fs else statusEntries fs := by
  by_cases h : k = nameStatus <;> simp [statusEntries, List.filter_cons, h]

theorem statusInts_cons (k : String) (v : Json) (fs : List (String × Json)) :
    statusInts ((k, v) :: fs) = ((decide (k ≠ nameStatus) || v.isInt) && statusInts fs) := by
  simp [statusInts]

theorem statusInts_statusEntries (fields : List (String × Json)) :
    statusInts (statusEntries fields) = statusInts fields := by
  induction fields with
  | nil => rfl
  | cons p fs ih =>
    obtain ⟨k, v⟩ := p
    rw [statusEntries_cons, statusInts_cons]
    by_cases h : k = nameStatus
    · rw [if_pos h, statusInts_cons, ih]
    · rw [if_neg h, ih]
      simp [h]

theorem lastStatus_statusEntries (fields : List (String × Json)) (s : Int) :
    lastStatus (statusEntries fields) s = lastStatus fields s := by
  induction fields generalizing s with
  | nil => rfl
  | cons p fs ih =>
    obtain ⟨k, v⟩ := p
    rw [statusEntries_cons]
    by_cases h : k = nameStatus
    · rw [if_pos h]
      cases v <;> simp [lastStatus, h, ih]
    · rw [if_neg h, lastStatus_cons_ne k v fs s h, ih]

theorem status_of_statusEntries (it : ItemResp) (s : Nat)
    (h : statusEntries it.fields = [(nameStatus, Json.int (Int.ofNat s))]) :
    statusInts it.fields = true ∧ it.status = Int.ofNat s := by
  constructor
  · rw [← statusInts_statusEntries, h]
    simp [statusInts, Json.isInt]
  · have hl : lastStatus it.fields (-1) = (s : Int) := by
      rw [← lastStatus_statusEntries, h]
      simp [lastStatus]
    simp only [ItemResp.status, hl]
    have : ¬ (Int.ofNat s < 0) := by simp
    simp [this]

theorem statuses_of_statusEntries (items : List ItemResp) (statuses : List Nat)
    (h : items.map (fun it => statusEntries it.fields) =
      statuses.map (fun (s : Nat) => [(nameStatus, Json.int (Int.ofNat s))])) :
    (∀ it ∈ items, statusInts it.fields = true)
      ∧ items.map ItemResp.status = statuses.map Int.ofNat := by
  induction items generalizing statuses with
  | nil =>
    cases statuses with
    | nil => simp
    | cons s ss => simp at h
  | cons it its ih =>
    cases statuses with
    | nil => simp at h
    | cons s ss =>
      simp only [List.map_cons, List.cons.injEq] at h
      obtain ⟨h1, h2⟩ := ih ss h.2
      obtain ⟨h3, h4⟩ := status_of_statusEntries it s h.1
      constructor
      · intro it1 hmem
        rcases List.mem_cons.mp hmem with rfl | hmem
        · exact h3
        · exact h1 it1 hmem
      · simp [h4, h2]

theorem fields_length_le_itemsToks (items : List ItemResp) (it : ItemResp) (h : it ∈ items) :
    it.fields.length + 5 ≤ (itemsToks items).length := by
  induction items with
  | nil => simp at h
  | cons it1 its ih =>
    rcases List.mem_cons.mp h with rfl | hmem
    · have := length_le_toksObj it.fields
      simp only [itemsToks, toJson_toks, List.length_append, List.length_cons]
      omega
    · have := ih hmem
      simp only [itemsToks, List.length_append]
      omega

theorem retrySubset_sublist {α : Type} (events : List α) (statuses : List Int) :
    (retrySubset events statuses).Sublist events := by
  induction events generalizing statuses with
  | nil => simp [retrySubset]
  | cons e es ih =>
    cases statuses with
    | nil => simp [retrySubset]
    | cons s ss =>
      rw [retrySubset_cons]
      split_ifs
      · exact (ih ss).cons₂ e
      · exact (ih ss).cons e

theorem mem_retrySubset {α : Type} (events : List α) (statuses : List Int) (e : α) :
    e ∈ retrySubset events statuses ↔
      ∃ (i : Nat) (s : Int), events[i]? = some e ∧ statuses[i]? = some s ∧ (s = 429 ∨ 500 ≤ s) := by
  induction events generalizing statuses with
  | nil => simp [retrySubset]
  | cons e1 es ih =>
    cases statuses with
    | nil => simp [retrySubset]
    | cons s1 ss =>
      rw [retrySubset_cons]
      constructor
      · intro hmem
        by_cases hr : retryable s1 = true
        · rw [if_pos hr] at hmem
          rcases List.mem_cons.mp hmem with rfl | hmem
          · exact ⟨0, s1, by simp, by simp, by simpa [retryable] using hr⟩
          · obtain ⟨i, s, h1, h2, h3⟩ := (ih ss).mp hmem
            exact ⟨i + 1, s, by simpa using h1, by simpa using h2, h3⟩
        · rw [if_neg hr] at hmem
          obtain ⟨i, s, h1, h2, h3⟩ := (ih ss).mp hmem
          exact ⟨i + 1, s, by simpa using h1, by simpa using h2, h3⟩
      · rintro ⟨i, s, h1, h2, h3⟩
        cases i with
        | zero =>
          simp only [List.getElem?_cons_zero, Option.some.injEq] at h1 h2
          subst h1 h2
          have hr : retryable s1 = true := by simpa [retryable] using h3
          rw [if_pos hr]
          exact List.mem_cons_self _ _
        | succ i =>
          simp only [List.getElem?_cons_succ] at h1 h2
          have hmem := (ih ss).mpr ⟨i, s, h1, h2, h3⟩
          split_ifs
          · exact List.mem_cons_of_mem _ hmem
          · exact hmem

/-- Claim C2: for a batch `events` and a well-formed bulk response (a top-level
dictionary whose field `items` is an array of at least as many items as there
are events, each item a one-entry dictionary whose status dictionary has one
field `status`, a non-negative integer), `bulkCollectPublishFails` returns
exactly the events whose item, at the same position, has status 429 or at
least 500, in the order of the batch; the result is a sublist of the batch and
holds no event whose status is anything else. -/
theorem C2_retry_subset {α : Type} (fuel : Nat) (events : List α)
    (before after : List (String × Json)) (items : List ItemResp) (statuses : List Nat)
    (hkeys : ∀ p ∈ before, p.1 ≠ nameItems)
    (hlen : events.length ≤ items.length)
    (hstatus : items.map (fun it => statusEntries it.fields) =
      statuses.map (fun (s : Nat) => [(nameStatus, Json.int (Int.ofNat s))]))
    (hfuel : (bulkResponse before items after).toks.length ≤ fuel) :
    bulkCollectPublishFails fuel (jsonReader.init (bulkResponse before items after).toks) events =
        some (some (retrySubset events (statuses.map Int.ofNat)))
      ∧ (retrySubset events (statuses.map Int.ofNat)).Sublist events
      ∧ ∀ e, e ∈ retrySubset events (statuses.map Int.ofNat) ↔
          ∃ (i : Nat) (s : Int), events[i]? = some e ∧ (statuses.map Int.ofNat)[i]? = some s
            ∧ (s = 429 ∨ 500 ≤ s) := by
  obtain ⟨hints, hst⟩ := statuses_of_statusEntries items statuses hstatus
  rw [bulkResponse_toks] at hfuel
  simp only [List.length_cons, List.length_append] at hfuel
  have hb := length_le_toksObj before
  refine ⟨?_, retrySubset_sublist _ _, mem_retrySubset _ _⟩
  rw [jsonReader.init, bulkResponse_toks, ← hst]
  refine bulkCollectPublishFails_items fuel events before items _ hkeys (by omega) ?_ hlen
  intro it hit
  have := fields_length_le_itemsToks items it hit
  exact ⟨hints it hit, by omega⟩

/-- Claim C2 at scenario S2 of the specification: of three events, the second
and the third are returned. -/
theorem C2_retry_subset_witness :
    bulkCollectPublishFails 40
        (jsonReader.init (bulkResponse [("took", Json.int 3)] sampleItems
          [("errors", Json.bool true)]).toks) ["a", "b", "c"] =
      some (some ["b", "c"]) :=
  (C2_retry_subset 40 ["a", "b", "c"] [("took", Json.int 3)] [("errors", Json.bool true)]
    sampleItems [201, 429, 500] (by decide) (by decide) rfl (by decide)).1

theorem itemStatus_arrEnd (fuel : Nat) (rest : List Tok) :
    itemStatus fuel ⟨Tok.arrEnd :: rest⟩ = some (⟨rest⟩, 0, none, some Err.errExpectedItemObject) := by
  simp [itemStatus, jsonReader.expectDict, step_cons, Tok.entity]

theorem collectLoop_items_short {α : Type} (fuel : Nat) (rest : List Tok) (remaining : Nat) :
    ∀ (its : List ItemResp) (i : Nat) (buf : List α) (n : Nat),
      (∀ it ∈ its, statusInts it.fields = true ∧ it.fields.length < fuel) →
      n ≤ i → (buf.drop i).length = remaining → its.length < remaining →
      collectLoop fuel remaining i ⟨itemsToks its ++ Tok.arrEnd :: rest⟩ buf n = some none := by
  induction remaining with
  | zero =>
    intro its i buf n _ _ _ hlt
    exact absurd hlt (Nat.not_lt_zero _)
  | succ k ih =>
    intro its i buf n hitems hni hlen hlt
    cases its with
    | nil => simp [itemsToks, collectLoop, itemStatus_arrEnd]
    | cons it its =>
      have hit := hitems it (List.mem_cons_self _ _)
      obtain ⟨msg, hst⟩ := itemStatus_item it (itemsToks its ++ Tok.arrEnd :: rest) fuel hit.1 hit.2
      have hitems1 : ∀ it1 ∈ its, statusInts it1.fields = true ∧ it1.fields.length < fuel :=
        fun it1 h1 => hitems it1 (List.mem_cons_of_mem _ h1)
      have hile : i < buf.length := by
        simp only [List.length_drop] at hlen
        omega
      have hget : buf[i]? = some buf[i] := List.getElem?_eq_getElem hile
      have hlen1 : (buf.drop (i + 1)).length = k := by
        simp only [List.length_drop] at hlen ⊢
        omega
      have hlt1 : its.length < k := by
        simp only [List.length_cons] at hlt
        omega
      have hset : ((buf.set n buf[i]).drop (i + 1)).length = k := by
        rw [List.drop_set_of_lt _ _ (by omega)]
        exact hlen1
      simp only [itemsToks, List.append_assoc, collectLoop, hst, hget]
      split_ifs
      · exact ih its (i + 1) buf n hitems1 (by omega) hlen1 hlt1
      · exact ih its (i + 1) buf n hitems1 (by omega) hlen1 hlt1
      · exact ih its (i + 1) (buf.set n buf[i]) (n + 1) hitems1 (by omega) hset hlt1

/-- The scanner on a well-formed response with fewer items than there are
events: it meets the end of the array where it expects an item and returns
nil. -/
theorem bulkCollectPublishFails_short {α : Type} (fuel : Nat) (events : List α)
    (before : List (String × Json)) (items : List ItemResp) (rest : List Tok)
    (hkeys : ∀ p ∈ before, p.1 ≠ nameItems)
    (hfuel : before.length < fuel)
    (hitems : ∀ it ∈ items, statusInts it.fields = true ∧ it.fields.length < fuel)
    (hlen : items.length < events.length) :
    bulkCollectPublishFails fuel
        ⟨Tok.dictStart :: (toksObj before ++ Tok.key nameItems :: Tok.arrStart ::
          (itemsToks items ++ Tok.arrEnd :: rest))⟩ events = some none := by
  have h := collectLoop_items_short fuel rest events.length items 0 events 0 hitems (le_refl 0)
    (by simp) hlen
  simp only [bulkCollectPublishFails, expectDict_dictStart,
    findItems_fields before _ fuel hkeys hfuel, expectArray_arrStart, h]

/-- The result of the scan of a response whose items are one-entry dictionaries
around a status dictionary whose `status` fields hold integers. -/
theorem bulkCollectPublishFails_bulkResponse {α : Type} (fuel : Nat) (events : List α)
    (before after : List (String × Json)) (items : List ItemResp)
    (hkeys : ∀ p ∈ before, p.1 ≠ nameItems)
    (hints : ∀ it ∈ items, statusInts it.fields = true)
    (hfuel : (bulkResponse before items after).toks.length ≤ fuel) :
    bulkCollectPublishFails fuel (jsonReader.init (bulkResponse before items after).toks) events =
      if events.length ≤ items.length then
        some (some (retrySubset events (items.map ItemResp.status)))
      else some none := by
  rw [bulkResponse_toks] at hfuel
  simp only [List.length_cons, List.length_append] at hfuel
  have hb := length_le_toksObj before
  have hitems : ∀ it ∈ items, statusInts it.fields = true ∧ it.fields.length < fuel := by
    intro it hit
    have := fields_length_le_itemsToks items it hit
    exact ⟨hints it hit, by omega⟩
  rw [jsonReader.init, bulkResponse_toks]
  by_cases hlen : events.length ≤ items.length
  · rw [if_pos hlen]
    exact bulkCollectPublishFails_items fuel events before items _ hkeys (by omega) hitems hlen
  · rw [if_neg hlen]
    exact bulkCollectPublishFails_short fuel events before items _ hkeys (by omega) hitems
      (by omega)

/-! ## Publishing a batch -/

theorem collectLoop_sublist {α : Type} (fuel : Nat) (remaining : Nat) :
    ∀ (i : Nat) (r : jsonReader) (buf : List α) (n : Nat) (l : List α),
      n ≤ i → collectLoop fuel remaining i r buf n = some (some l) →
      ∃ l1, l = buf.take n ++ l1 ∧ l1.Sublist (buf.drop i) := by
  induction remaining with
  | zero =>
    intro i r buf n l _ h
    simp only [collectLoop, Option.some.injEq] at h
    exact ⟨[], by simp [h], List.nil_sublist _⟩
  | succ k ih =>
    intro i r buf n l hni h
    have hsub : (buf.drop (i + 1)).Sublist (buf.drop i) := by
      rw [← List.drop_drop 1 i buf]
      exact List.drop_sublist 1 _
    rw [collectLoop] at h
    split at h
    · exact absurd h (by simp)
    · exact absurd h (by simp)
    · rename_i r1 status msg hst
      split_ifs at h
      · obtain ⟨l1, h1, h2⟩ := ih (i + 1) r1 buf n l (by omega) h
        exact ⟨l1, h1, h2.trans hsub⟩
      · obtain ⟨l1, h1, h2⟩ := ih (i + 1) r1 buf n l (by omega) h
        exact ⟨l1, h1, h2.trans hsub⟩
      · split at h
        · exact absurd h (by simp)
        · rename_i e hget
          obtain ⟨hile, he⟩ := List.getElem?_eq_some_iff.mp hget
          obtain ⟨l1, h1, h2⟩ := ih (i + 1) r1 (buf.set n e) (n + 1) l (by omega) h
          rw [take_set_succ buf n e (by omega)] at h1
          rw [List.drop_set_of_lt _ _ (by omega)] at h2
          refine ⟨e :: l1, by simp [h1], ?_⟩
          rw [List.drop_eq_getElem_cons hile, he]
          exact h2.cons₂ e

/-- Whatever the response, the events that the scanner returns form a sublist
of the batch. -/
theorem bulkCollectPublishFails_sublist {α : Type} (fuel : Nat) (r : jsonReader)
    (events l : List α) (h : bulkCollectPublishFails fuel r events = some (some l)) :
    l.Sublist events := by
  unfold bulkCollectPublishFails at h
  split at h
  · exact absurd h (by simp)
  · split at h
    · exact absurd h (by simp)
    · exact absurd h (by simp)
    · split at h
      · exact absurd h (by simp)
      · rename_i r3 _
        obtain ⟨l1, h1, h2⟩ := collectLoop_sublist fuel events.length 0 r3 events 0 l (le_refl 0) h
        simp only [List.take_zero, List.nil_append, List.drop_zero] at h1 h2
        rw [h1]
        exact h2

theorem sliceLen_le {α : Type} (fuel : Nat) (r : jsonReader) (events : List α)
    (failed : Option (List α)) (h : bulkCollectPublishFails fuel r events = some failed) :
    sliceLen failed ≤ events.length := by
  cases failed with
  | none => simp [sliceLen]
  | some l => exact (bulkCollectPublishFails_sublist fuel r events l h).length_le

/-! ## The fuel of the scanner -/

theorem itemStatusInnerLoop_succ (f : Nat) :
    ∀ (r : jsonReader) (s : Int) (m : Option (List Tok))
      (x : jsonReader × Int × Option (List Tok) × Option Err),
      itemStatusInnerLoop f r s m = some x → itemStatusInnerLoop (f + 1) r s m = some x := by
  induction f with
  | zero =>
    intro r s m x h
    simp [itemStatusInnerLoop] at h
  | succ k ih =>
    intro r s m x h
    rw [itemStatusInnerLoop] at h ⊢
    rcases hnf : r.nextFieldName with ⟨r1, kind, name, e⟩
    simp only [hnf] at h ⊢
    split_ifs at h ⊢ with h1 h2 h3 h4
    · exact h
    · exact h
    · rcases hni : r1.nextInt with ⟨r2, v, e2⟩
      simp only [hni] at h ⊢
      cases e2 with
      | some err => exact h
      | none => exact ih r2 v m x h
    · rcases hig : r1.ignoreNext with ⟨r2, raw, e2⟩
      simp only [hig] at h ⊢
      cases e2 with
      | some err => exact h
      | none => exact ih r2 s raw x h
    · exact ih _ s m x h

theorem itemStatus_succ (f : Nat) (r : jsonReader)
    (x : jsonReader × Int × Option (List Tok) × Option Err)
    (h : itemStatus f r = some x) : itemStatus (f + 1) r = some x := by
  unfold itemStatus at h ⊢
  rcases hed : r.expectDict with ⟨r1, e1⟩
  simp only [hed] at h ⊢
  cases e1 with
  | some err => exact h
  | none =>
    simp only at h ⊢
    rcases hnf : r1.nextFieldName with ⟨r2, kind, name, e2⟩
    simp only [hnf] at h ⊢
    cases e2 with
    | some err => exact h
    | none =>
      simp only at h ⊢
      split_ifs at h ⊢ with hk
      · exact h
      · unfold itemStatusInner at h ⊢
        rcases hed2 : r2.expectDict with ⟨r3, e3⟩
        simp only [hed2] at h ⊢
        cases e3 with
        | some err => exact h
        | none =>
          simp only at h ⊢
          cases hl : itemStatusInnerLoop f r3 (-1) none with
          | none => simp [hl] at h
          | some y =>
            rw [itemStatusInnerLoop_succ f r3 (-1) none y hl]
            rw [hl] at h
            exact h

theorem findItems_succ (f : Nat) :
    ∀ (r : jsonReader) (x : Option jsonReader),
      findItems f r = some x → findItems (f + 1) r = some x := by
  induction f with
  | zero =>
    intro r x h
    simp [findItems] at h
  | succ k ih =>
    intro r x h
    rw [findItems] at h ⊢
    rcases hnf : r.nextFieldName with ⟨r1, kind, name, e⟩
    simp only [hnf] at h ⊢
    cases e with
    | some err => exact h
    | none =>
      simp only at h ⊢
      split_ifs at h ⊢
      · exact h
      · exact h
      · exact ih _ x h

theorem collectLoop_succ {α : Type} (f : Nat) (remaining : Nat) :
    ∀ (i : Nat) (r : jsonReader) (buf : List α) (n : Nat) (x : Option (List α)),
      collectLoop f remaining i r buf n = some x →
      collectLoop (f + 1) remaining i r buf n = some x := by
  induction remaining with
  | zero =>
    intro i r buf n x h
    simpa [collectLoop] using h
  | succ k ih =>
    intro i r buf n x h
    rw [collectLoop] at h ⊢
    cases hst : itemStatus f r with
    | none => simp [hst] at h
    | some y =>
      rw [itemStatus_succ f r y hst]
      rw [hst] at h
      obtain ⟨r1, status, msg, e⟩ := y
      cases e with
      | some err => exact h
      | none =>
        simp only at h ⊢
        split_ifs at h ⊢
        · exact ih _ _ _ _ _ h
        · exact ih _ _ _ _ _ h
        · cases hg : buf[i]? with
          | none => simp [hg] at h
          | some e =>
            simp only [hg] at h ⊢
            exact ih _ _ _ _ _ h

theorem bulkCollectPublishFails_succ {α : Type} (f : Nat) (r : jsonReader) (events : List α)
    (x : Option (List α)) (h : bulkCollectPublishFails f r events = some x) :
    bulkCollectPublishFails (f + 1) r events = some x := by
  unfold bulkCollectPublishFails at h ⊢
  rcases hed : r.expectDict with ⟨r1, e1⟩
  simp only [hed] at h ⊢
  cases e1 with
  | some err => exact h
  | none =>
    simp only at h ⊢
    cases hf : findItems f r1 with
    | none => simp [hf] at h
    | some y =>
      rw [findItems_succ f r1 y hf]
      rw [hf] at h
      cases y with
      | none => exact h
      | some r2 =>
        simp only at h ⊢
        rcases hea : r2.expectArray with ⟨r3, e3⟩
        simp only [hea] at h ⊢
        cases e3 with
        | some err => exact h
        | none => exact collectLoop_succ f events.length 0 r3 events 0 x h

/-- The result of a scan does not depend on the fuel: once the scan returns, it
returns the same with any larger fuel. -/
theorem bulkCollectPublishFails_fuel {α : Type} (f g : Nat) (r : jsonReader) (events : List α)
    (x : Option (List α)) (h : bulkCollectPublishFails f r events = some x) (hfg : f ≤ g) :
    bulkCollectPublishFails g r events = some x := by
  induction g with
  | zero =>
    have : f = 0 := by omega
    subst this
    exact h
  | succ k ih =>
    by_cases hk : f ≤ k
    · exact bulkCollectPublishFails_succ k r events x (ih hk)
    · have : f = k + 1 := by omega
      subst this
      exact h

theorem skipValue_length (toks : List Tok) :
    ∀ (d : Nat) (acc raw rest : List Tok),
      skipValue d acc toks = some (raw, rest) → rest.length < toks.length := by
  induction toks with
  | nil =>
    intro d acc raw rest h
    simp [skipValue] at h
  | cons t ts ih =>
    intro d acc raw rest h
    cases t <;> simp only [skipValue] at h
    case dictStart => have := ih _ _ _ _ h; simp only [List.length_cons]; omega
    case arrStart => have := ih _ _ _ _ h; simp only [List.length_cons]; omega
    case dictEnd =>
      split_ifs at h
      · simp only [Option.some.injEq, Prod.mk.injEq] at h
        rw [← h.2]; simp
      · have := ih _ _ _ _ h; simp only [List.length_cons]; omega
    case arrEnd =>
      split_ifs at h
      · simp only [Option.some.injEq, Prod.mk.injEq] at h
        rw [← h.2]; simp
      · have := ih _ _ _ _ h; simp only [List.length_cons]; omega
    all_goals
      split_ifs at h
      · simp only [Option.some.injEq, Prod.mk.injEq] at h
        rw [← h.2]; simp
      · have := ih _ _ _ _ h; simp only [List.length_cons]; omega

theorem ignoreNext_length (r : jsonReader) : r.ignoreNext.1.toks.length ≤ r.toks.length := by
  unfold jsonReader.ignoreNext
  cases h : skipValue 0 [] r.toks with
  | none => simp
  | some p =>
    obtain ⟨raw, rest⟩ := p
    have := skipValue_length r.toks 0 [] raw rest h
    simp only
    omega

theorem step_length (r : jsonReader) : r.step.1.toks.length ≤ r.toks.length := by
  unfold jsonReader.step
  cases h : r.toks with
  | nil => simp [h]
  | cons t ts => simp

theorem nextFieldName_length (r : jsonReader) :
    r.nextFieldName.1.toks.length ≤ r.toks.length := by
  have hs := step_length r
  unfold jsonReader.nextFieldName
  split <;> try exact hs
  all_goals (rename_i heq; rw [heq] at hs; try split_ifs) <;> exact hs

theorem nextInt_length (r : jsonReader) : r.nextInt.1.toks.length ≤ r.toks.length := by
  have hs := step_length r
  unfold jsonReader.nextInt
  split <;> (rename_i heq; rw [heq] at hs; exact hs)

theorem expectDict_length (r : jsonReader) : r.expectDict.1.toks.length ≤ r.toks.length := by
  have hs := step_length r
  unfold jsonReader.expectDict
  split <;> (rename_i heq; rw [heq] at hs; try split_ifs) <;> exact hs

theorem expectArray_length (r : jsonReader) : r.expectArray.1.toks.length ≤ r.toks.length := by
  have hs := step_length r
  unfold jsonReader.expectArray
  split <;> (rename_i heq; rw [heq] at hs; try split_ifs) <;> exact hs

theorem nextFieldName_cons (t : Tok) (ts : List Tok) :
    (jsonReader.nextFieldName ⟨t :: ts⟩).1 = ⟨ts⟩ := by
  cases t <;> rfl

theorem itemStatusInnerLoop_stuck (f : Nat) :
    ∀ (r : jsonReader) (s : Int) (m : Option (List Tok)),
      r.toks.length < f → itemStatusInnerLoop f r s m = none →
      ∀ g, itemStatusInnerLoop g r s m = none := by
  induction f with
  | zero =>
    intro r s m hlen
    exact absurd hlen (Nat.not_lt_zero _)
  | succ k ih =>
    intro r s m hlen h g
    obtain ⟨toks⟩ := r
    cases toks with
    | nil => exact itemStatusInnerLoop_end_of_input g s m
    | cons t ts =>
      have hts : ts.length < k := by
        simp only [List.length_cons] at hlen
        omega
      cases g with
      | zero => rfl
      | succ g =>
        rw [itemStatusInnerLoop] at h ⊢
        have hr1 := nextFieldName_cons t ts
        rcases hnf : jsonReader.nextFieldName ⟨t :: ts⟩ with ⟨r1, kind, name, e⟩
        rw [hnf] at hr1
        simp only at hr1
        subst hr1
        simp only [hnf] at h ⊢
        split_ifs at h ⊢ with h1 h2 h3 h4
        · rcases hni : jsonReader.nextInt ⟨ts⟩ with ⟨r2, v, e2⟩
          have hl2 := nextInt_length ⟨ts⟩
          rw [hni] at hl2
          simp only [hni] at h ⊢
          cases e2 with
          | some err => simp at h
          | none => exact ih r2 v m (by simp only at hl2; omega) h g
        · rcases hig : jsonReader.ignoreNext ⟨ts⟩ with ⟨r2, raw, e2⟩
          have hl2 := ignoreNext_length ⟨ts⟩
          rw [hig] at hl2
          simp only [hig] at h ⊢
          cases e2 with
          | some err => simp at h
          | none => exact ih r2 s raw (by simp only at hl2; omega) h g
        · have hl2 := ignoreNext_length ⟨ts⟩
          exact ih _ s m (by simp only at hl2; omega) h g

theorem itemStatusInnerLoop_length (f : Nat) :
    ∀ (r : jsonReader) (s : Int) (m : Option (List Tok))
      (x : jsonReader × Int × Option (List Tok) × Option Err),
      itemStatusInnerLoop f r s m = some x → x.1.toks.length ≤ r.toks.length := by
  induction f with
  | zero =>
    intro r s m x h
    simp [itemStatusInnerLoop] at h
  | succ k ih =>
    intro r s m x h
    rw [itemStatusInnerLoop] at h
    have hl1 := nextFieldName_length r
    rcases hnf : r.nextFieldName with ⟨r1, kind, name, e⟩
    rw [hnf] at hl1
    simp only at hl1
    simp only [hnf] at h
    split_ifs at h with h1 h2 h3 h4
    · simp only [Option.some.injEq] at h
      subst h
      exact hl1
    · simp only [Option.some.injEq] at h
      subst h
      exact hl1
    · have hl2 := nextInt_length r1
      rcases hni : r1.nextInt with ⟨r2, v, e2⟩
      rw [hni] at hl2
      simp only at hl2
      simp only [hni] at h
      cases e2 with
      | some err =>
        simp only [Option.some.injEq] at h
        subst h
        simp only
        omega
      | none =>
        have := ih r2 v m x h
        omega
    · have hl2 := ignoreNext_length r1
      rcases hig : r1.ignoreNext with ⟨r2, raw, e2⟩
      rw [hig] at hl2
      simp only at hl2
      simp only [hig] at h
      cases e2 with
      | some err =>
        simp only [Option.some.injEq] at h
        subst h
        simp only
        omega
      | none =>
        have := ih r2 s raw x h
        omega
    · have hl2 := ignoreNext_length r1
      have := ih _ s m x h
      omega

theorem itemStatus_length (f : Nat) (r : jsonReader)
    (x : jsonReader × Int × Option (List Tok) × Option Err)
    (h : itemStatus f r = some x) : x.1.toks.length ≤ r.toks.length := by
  unfold itemStatus at h
  have hl1 := expectDict_length r
  rcases hed : r.expectDict with ⟨r1, e1⟩
  rw [hed] at hl1
  simp only at hl1
  simp only [hed] at h
  cases e1 with
  | some err =>
    simp only [Option.some.injEq] at h
    subst h
    exact hl1
  | none =>
    simp only at h
    have hl2 := nextFieldName_length r1
    rcases hnf : r1.nextFieldName with ⟨r2, kind, name, e2⟩
    rw [hnf] at hl2
    simp only at hl2
    simp only [hnf] at h
    cases e2 with
    | some err =>
      simp only [Option.some.injEq] at h
      subst h
      simp only
      omega
    | none =>
      simp only at h
      split_ifs at h with hk
      · simp only [Option.some.injEq] at h
        subst h
        simp only
        omega
      · have hl3 : ∀ y, itemStatusInner f r2 = some y → y.1.toks.length ≤ r2.toks.length := by
          intro y hy
          unfold itemStatusInner at hy
          have hl4 := expectDict_length r2
          rcases hed2 : r2.expectDict with ⟨r3, e3⟩
          rw [hed2] at hl4
          simp only at hl4
          simp only [hed2] at hy
          cases e3 with
          | some err =>
            simp only [Option.some.injEq] at hy
            subst hy
            exact hl4
          | none =>
            have := itemStatusInnerLoop_length f r3 (-1) none y hy
            omega
        cases hin : itemStatusInner f r2 with
        | none => simp [hin] at h
        | some y =>
          have hy := hl3 y hin
          obtain ⟨r3, status, msg, e3⟩ := y
          simp only [hin] at h
          have hl5 := step_length r3
          rcases hsp : r3.step with ⟨r4, kind2, raw2, e4⟩
          rw [hsp] at hl5
          simp only at hl5 hy
          simp only [hsp] at h
          cases e4 with
          | some err =>
            simp only [Option.some.injEq] at h
            subst h
            simp only
            omega
          | none =>
            simp only at h
            split_ifs at h <;>
              (simp only [Option.some.injEq] at h; subst h; simp only; omega)

theorem itemStatus_stuck (f : Nat) (r : jsonReader) (hlen : r.toks.length < f)
    (h : itemStatus f r = none) : ∀ g, itemStatus g r = none := by
  intro g
  unfold itemStatus at h ⊢
  have hl1 := expectDict_length r
  rcases hed : r.expectDict with ⟨r1, e1⟩
  rw [hed] at hl1
  simp only at hl1
  simp only [hed] at h ⊢
  cases e1 with
  | some err => simp at h
  | none =>
    simp only at h ⊢
    have hl2 := nextFieldName_length r1
    rcases hnf : r1.nextFieldName with ⟨r2, kind, name, e2⟩
    rw [hnf] at hl2
    simp only at hl2
    simp only [hnf] at h ⊢
    cases e2 with
    | some err => simp at h
    | none =>
      simp only at h ⊢
      split_ifs at h ⊢ with hk
      · have hin : itemStatusInner f r2 = none := by
          cases hin : itemStatusInner f r2 with
          | none => rfl
          | some y =>
            obtain ⟨r3, status, msg, e3⟩ := y
            simp only [hin] at h
            rcases hsp : r3.step with ⟨r4, kind2, raw2, e4⟩
            simp only [hsp] at h
            cases e4 with
            | some err => simp at h
            | none =>
              simp only at h
              split_ifs at h
        have hing : itemStatusInner g r2 = none := by
          unfold itemStatusInner at hin ⊢
          have hl4 := expectDict_length r2
          rcases hed2 : r2.expectDict with ⟨r3, e3⟩
          rw [hed2] at hl4
          simp only at hl4
          simp only [hed2] at hin ⊢
          cases e3 with
          | some err => simp at hin
          | none => exact itemStatusInnerLoop_stuck f r3 (-1) none (by omega) hin g
        simp [hing]

theorem itemStatus_fuel (f g : Nat) (r : jsonReader)
    (x : jsonReader × Int × Option (List Tok) × Option Err)
    (h : itemStatus f r = some x) (hfg : f ≤ g) : itemStatus g r = some x := by
  induction g with
  | zero =>
    have : f = 0 := by omega
    subst this
    exact h
  | succ k ih =>
    by_cases hk : f ≤ k
    · exact itemStatus_succ k r x (ih hk)
    · have : f = k + 1 := by omega
      subst this
      exact h

theorem findItems_fuel (f g : Nat) (r : jsonReader) (x : Option jsonReader)
    (h : findItems f r = some x) (hfg : f ≤ g) : findItems g r = some x := by
  induction g with
  | zero =>
    have : f = 0 := by omega
    subst this
    exact h
  | succ k ih =>
    by_cases hk : f ≤ k
    · exact findItems_succ k r x (ih hk)
    · have : f = k + 1 := by omega
      subst this
      exact h

theorem findItems_returns (f : Nat) :
    ∀ (r : jsonReader), r.toks.length < f →
      ∃ x, findItems f r = some x ∧ ∀ r2, x = some r2 → r2.toks.length ≤ r.toks.length := by
  induction f with
  | zero =>
    intro r hlen
    exact absurd hlen (Nat.not_lt_zero _)
  | succ k ih =>
    intro r hlen
    obtain ⟨toks⟩ := r
    cases toks with
    | nil => exact ⟨none, by simp [findItems, jsonReader.nextFieldName, jsonReader.step], by simp⟩
    | cons t ts =>
      have hts : ts.length < k := by
        simp only [List.length_cons] at hlen
        omega
      rw [findItems]
      have hr1 := nextFieldName_cons t ts
      rcases hnf : jsonReader.nextFieldName ⟨t :: ts⟩ with ⟨r1, kind, name, e⟩
      rw [hnf] at hr1
      simp only at hr1
      subst hr1
      simp only
      cases e with
      | some err => exact ⟨none, rfl, by simp⟩
      | none =>
        simp only
        split_ifs
        · exact ⟨none, rfl, by simp⟩
        · refine ⟨some ⟨ts⟩, rfl, ?_⟩
          intro r2 h2
          simp only [Option.some.injEq] at h2
          subst h2
          simp
        · have hl2 := ignoreNext_length ⟨ts⟩
          obtain ⟨x, hx, hxl⟩ := ih (jsonReader.ignoreNext ⟨ts⟩).1 (by simp only at hl2; omega)
          refine ⟨x, hx, ?_⟩
          intro r2 h2
          have := hxl r2 h2
          simp only [List.length_cons] at hl2 ⊢
          omega

theorem collectLoop_stuck {α : Type} (f : Nat) (remaining : Nat) :
    ∀ (i : Nat) (r : jsonReader) (buf : List α) (n : Nat),
      r.toks.length < f → collectLoop f remaining i r buf n = none →
      ∀ g, collectLoop g remaining i r buf n = none := by
  induction remaining with
  | zero =>
    intro i r buf n _ h
    simp [collectLoop] at h
  | succ k ih =>
    intro i r buf n hlen h g
    rw [collectLoop] at h ⊢
    cases hst : itemStatus f r with
    | none => simp [itemStatus_stuck f r hlen hst g]
    | some x =>
      have hxl := itemStatus_length f r x hst
      cases hg : itemStatus g r with
      | none => rfl
      | some y =>
        have h1 := itemStatus_fuel f (max f g) r x hst (le_max_left f g)
        have h2 := itemStatus_fuel g (max f g) r y hg (le_max_right f g)
        rw [h1] at h2
        simp only [Option.some.injEq] at h2
        subst h2
        rw [hst] at h
        obtain ⟨r1, status, msg, e⟩ := x
        simp only at hxl
        cases e with
        | some err => simp at h
        | none =>
          simp only at h ⊢
          split_ifs at h ⊢
          · exact ih _ r1 _ _ (by omega) h g
          · exact ih _ r1 _ _ (by omega) h g
          · cases hb : buf[i]? with
            | none => rfl
            | some e =>
              simp only [hb] at h ⊢
              exact ih _ r1 _ _ (by omega) h g

/-- A scan that has not returned with more fuel than the response has tokens
does not return with any fuel: the code of the scanner does not terminate on
that response. -/
theorem bulkCollectPublishFails_stuck {α : Type} (f : Nat) (r : jsonReader) (events : List α)
    (hlen : r.toks.length < f) (h : bulkCollectPublishFails f r events = none) :
    ∀ g, bulkCollectPublishFails g r events = none := by
  intro g
  unfold bulkCollectPublishFails at h ⊢
  have hl1 := expectDict_length r
  rcases hed : r.expectDict with ⟨r1, e1⟩
  rw [hed] at hl1
  simp only at hl1
  simp only [hed] at h ⊢
  cases e1 with
  | some err => simp at h
  | none =>
    simp only at h ⊢
    obtain ⟨x, hx, hxl⟩ := findItems_returns f r1 (by omega)
    rw [hx] at h
    cases hg : findItems g r1 with
    | none => rfl
    | some y =>
      have h1 := findItems_fuel f (max f g) r1 x hx (le_max_left f g)
      have h2 := findItems_fuel g (max f g) r1 y hg (le_max_right f g)
      rw [h1] at h2
      simp only [Option.some.injEq] at h2
      subst h2
      cases x with
      | none => simp at h
      | some r2 =>
        have hl2 := hxl r2 rfl
        simp only at h ⊢
        have hl3 := expectArray_length r2
        rcases hea : r2.expectArray with ⟨r3, e3⟩
        rw [hea] at hl3
        simp only at hl3
        simp only [hea] at h ⊢
        cases e3 with
        | some err => simp at h
        | none => exact collectLoop_stuck f events.length 0 r3 events 0 (by omega) h g

theorem bulkEncodeLoop_documents (env : BulkEnv) (index : String) (remaining : Nat) :
    ∀ (i : Nat) (buf : List MapStr) (n : Nat) (body : List (bulkMeta × MapStr)),
      n ≤ i → (buf.drop i).length = remaining →
      allDocuments index (buf.drop i) = true →
      bulkEncodeLoop env.send index remaining i buf n body =
        some (buf.take n ++ acceptedBatch env index (buf.drop i),
          body ++ requestBody env index (buf.drop i)) := by
  induction remaining with
  | zero =>
    intro i buf n body _ hlen _
    have hnil : buf.drop i = [] := List.length_eq_zero.mp hlen
    simp [bulkEncodeLoop, hnil, acceptedBatch, requestBody]
  | succ k ih =>
    intro i buf n body hni hlen hdocs
    have hile : i < buf.length := by
      simp only [List.length_drop] at hlen
      omega
    have hdrop : buf.drop i = buf[i] :: buf.drop (i + 1) := List.drop_eq_getElem_cons hile
    have hget : buf[i]? = some buf[i] := List.getElem?_eq_getElem hile
    have hlen1 : (buf.drop (i + 1)).length = k := by
      simp only [List.length_drop] at hlen ⊢
      omega
    rw [hdrop] at hdocs
    simp only [allDocuments, List.all_cons, Bool.and_eq_true] at hdocs
    obtain ⟨bm, hbm⟩ := Option.isSome_iff_exists.mp hdocs.1
    have hdocs1 : allDocuments index (buf.drop (i + 1)) = true := hdocs.2
    simp only [bulkEncodeLoop, hget, hbm, hdrop, acceptedBatch, requestBody, List.filter_cons,
      List.filterMap_cons, accepts]
    cases hs : env.send bm buf[i] with
    | some err =>
      simp only [Option.isNone_some, Bool.false_eq_true, if_false]
      exact ih (i + 1) buf n body (by omega) hlen1 hdocs1
    | none =>
      simp only [Option.isNone_none, if_true]
      have hset : ((buf.set n buf[i]).drop (i + 1)).length = k := by
        rw [List.drop_set_of_lt _ _ (by omega)]
        exact hlen1
      have hdocs2 : allDocuments index ((buf.set n buf[i]).drop (i + 1)) = true := by
        rw [List.drop_set_of_lt _ _ (by omega)]
        exact hdocs1
      rw [ih (i + 1) (buf.set n buf[i]) (n + 1) (body ++ [(bm, buf[i])]) (by omega) hset hdocs2]
      rw [take_set_succ buf n buf[i] (by omega), List.drop_set_of_lt _ _ (by omega)]
      simp [acceptedBatch, requestBody]

theorem bulkEncodeLoop_panics (env : BulkEnv) (index : String) (remaining : Nat) :
    ∀ (i : Nat) (buf : List MapStr) (n : Nat) (body : List (bulkMeta × MapStr)),
      n ≤ i → (buf.drop i).length = remaining →
      allDocuments index (buf.drop i) = false →
      bulkEncodeLoop env.send index remaining i buf n body = none := by
  induction remaining with
  | zero =>
    intro i buf n body _ hlen hdocs
    have hnil : buf.drop i = [] := List.length_eq_zero.mp hlen
    simp [hnil, allDocuments] at hdocs
  | succ k ih =>
    intro i buf n body hni hlen hdocs
    have hile : i < buf.length := by
      simp only [List.length_drop] at hlen
      omega
    have hdrop : buf.drop i = buf[i] :: buf.drop (i + 1) := List.drop_eq_getElem_cons hile
    have hget : buf[i]? = some buf[i] := List.getElem?_eq_getElem hile
    have hlen1 : (buf.drop (i + 1)).length = k := by
      simp only [List.length_drop] at hlen ⊢
      omega
    rw [hdrop] at hdocs
    simp only [allDocuments, List.all_cons, Bool.and_eq_false_iff] at hdocs
    cases hbm : eventBulkMeta index buf[i] with
    | none => simp [bulkEncodeLoop, hget, hbm]
    | some bm =>
      have hdocs1 : allDocuments index (buf.drop (i + 1)) = false := by
        rcases hdocs with h | h
        · simp [hbm] at h
        · exact h
      simp only [bulkEncodeLoop, hget, hbm]
      cases hs : env.send bm buf[i] with
      | some err => exact ih (i + 1) buf n body (by omega) hlen1 hdocs1
      | none =>
        have hset : ((buf.set n buf[i]).drop (i + 1)).length = k := by
          rw [List.drop_set_of_lt _ _ (by omega)]
          exact hlen1
        have hdocs2 : allDocuments index ((buf.set n buf[i]).drop (i + 1)) = false := by
          rw [List.drop_set_of_lt _ _ (by omega)]
          exact hdocs1
        exact ih (i + 1) (buf.set n buf[i]) (n + 1) _ (by omega) hset hdocs2

theorem bulkEncodePublishRequest_documents (env : BulkEnv) (index : String)
    (events : List MapStr) (hdocs : allDocuments index events = true) :
    bulkEncodePublishRequest env.send index events =
      some (acceptedBatch env index events, requestBody env index events) := by
  have h := bulkEncodeLoop_documents env index events.length 0 events 0 [] (le_refl 0)
    (by simp) (by simpa using hdocs)
  simpa [bulkEncodePublishRequest] using h

theorem bulkEncodePublishRequest_panics (env : BulkEnv) (index : String)
    (events : List MapStr) (hdocs : allDocuments index events = false) :
    bulkEncodePublishRequest env.send index events = none := by
  have h := bulkEncodeLoop_panics env index events.length 0 events 0 [] (le_refl 0)
    (by simp) (by simpa using hdocs)
  simpa [bulkEncodePublishRequest] using h

theorem findItems_skip (before : List (String × Json)) (rest : List Tok) (fuel : Nat)
    (hkeys : ∀ p ∈ before, p.1 ≠ nameItems) :
    findItems (fuel + before.length) ⟨toksObj before ++ rest⟩ = findItems fuel ⟨rest⟩ := by
  induction before with
  | nil => simp [toksObj]
  | cons p fs ih =>
    obtain ⟨k, v⟩ := p
    have hk : k ≠ nameItems := hkeys (k, v) (List.mem_cons_self _ _)
    have hrec := ih (fun p hp => hkeys p (List.mem_cons_of_mem _ hp))
    have hf : fuel + ((k, v) :: fs).length = (fuel + fs.length) + 1 := by
      simp only [List.length_cons]
      omega
    rw [hf]
    simp only [toksObj, List.cons_append, List.append_assoc, findItems, nextFieldName_key]
    simp [hk, ignoreNext_json, hrec]

theorem scan_malformedBeforeItems {α : Type} (fuel : Nat) (raw : List Tok) (events : List α)
    (hmal : malformedBeforeItems raw) (hfuel : raw.length ≤ fuel) :
    bulkCollectPublishFails fuel (jsonReader.init raw) events = some none := by
  rcases hmal with hdict | ⟨before, rest, hkeys, rfl⟩ | ⟨before, rest, hkeys, rfl, harr⟩
  · unfold bulkCollectPublishFails
    split
    · rfl
    · rename_i r1 heq
      rw [heq] at hdict
      exact absurd rfl hdict
  · have hb := length_le_toksObj before
    simp only [List.length_cons, List.length_append] at hfuel
    obtain ⟨f, rfl⟩ : ∃ f, fuel = (f + 1) + before.length := ⟨fuel - before.length - 1, by omega⟩
    simp only [bulkCollectPublishFails, jsonReader.init, expectDict_dictStart,
      findItems_skip before _ (f + 1) hkeys, findItems, nextFieldName_dictEnd]
    simp
  · have hb := length_le_toksObj before
    simp only [List.length_cons, List.length_append] at hfuel
    obtain ⟨f, rfl⟩ : ∃ f, fuel = (f + 1) + before.length := ⟨fuel - before.length - 1, by omega⟩
    simp only [bulkCollectPublishFails, jsonReader.init, expectDict_dictStart,
      findItems_skip before _ (f + 1) hkeys, findItems, nextFieldName_key]
    cases hx : jsonReader.expectArray ⟨rest⟩ with
    | mk r3 e =>
      cases e with
      | none => simp [hx] at harr
      | some err => simp [hx]

theorem PublishEvents_documents (fuel : Nat) (env : BulkEnv) (index : String)
    (metrics : EsMetrics) (events : List MapStr)
    (hstart : env.startBulkRequest = none) (hdocs : allDocuments index events = true) :
    PublishEvents fuel env true index metrics events =
      if (acceptedBatch env index events).length = 0 then
        { metrics := { metrics with publishEventsCallCount := metrics.publishEventsCallCount + 1 },
          flushed := none, ending := Ending.returned (none, none) }
      else
        match env.flush (requestBody env index events) with
        | Except.error err =>
          { metrics := { metrics with publishEventsCallCount := metrics.publishEventsCallCount + 1 },
            flushed := some (requestBody env index events),
            ending := Ending.returned (some (acceptedBatch env index events), some err) }
        | Except.ok raw =>
          match bulkCollectPublishFails fuel (jsonReader.init raw) (acceptedBatch env index events) with
          | none =>
            { metrics := { metrics with publishEventsCallCount := metrics.publishEventsCallCount + 1 },
              flushed := some (requestBody env index events), ending := Ending.unfinished }
          | some failed_events =>
            if sliceLen failed_events > 0 then
              { metrics :=
                  { ackedEvents := metrics.ackedEvents
                      + (((acceptedBatch env index events).length : Int) - (sliceLen failed_events : Int))
                    eventsNotAcked := metrics.eventsNotAcked + (sliceLen failed_events : Int)
                    publishEventsCallCount := metrics.publishEventsCallCount + 1 },
                flushed := some (requestBody env index events),
                ending := Ending.returned (failed_events, some Err.ErrTempBulkFailure) }
            else
              { metrics :=
                  { ackedEvents := metrics.ackedEvents
                      + (((acceptedBatch env index events).length : Int) - (sliceLen failed_events : Int))
                    eventsNotAcked := metrics.eventsNotAcked + (sliceLen failed_events : Int)
                    publishEventsCallCount := metrics.publishEventsCallCount + 1 },
                flushed := some (requestBody env index events),
                ending := Ending.returned (none, none) } := by
  simp only [PublishEvents, hstart, bulkEncodePublishRequest_documents env index events hdocs,
    Bool.not_true, Bool.false_eq_true, if_false]

/-- Claim C3, as the code has it, for a batch of documents (every event holds a
`common.Time` under `@timestamp` and a string under `type`): `PublishEvents`
returns the input batch and `ErrNotConnected`, without flushing a request,
when the client is not connected; the input batch and the error when
`startBulkRequest` fails; `(nil, nil)` when encoding accepts no event; the
accepted batch and the error when flushing the bulk request fails; and
otherwise, when the scan of the response returns, the retry batch with
`ErrTempBulkFailure` when `bulkCollectPublishFails` yields a non-empty batch
and `(nil, nil)` when it yields none, as it does for a response whose top
level is not a dictionary, whose top-level dictionary has no field `items`, or
whose `items` value is not an array. -/
theorem C3_publishEvents_results (fuel : Nat) (env : BulkEnv) (index : String)
    (metrics : EsMetrics) (events : List MapStr) (hdocs : allDocuments index events = true) :
    ((PublishEvents fuel env false index metrics events).ending =
          Ending.returned (some events, some Err.ErrNotConnected)
        ∧ (PublishEvents fuel env false index metrics events).flushed = none)
      ∧ (∀ err, env.startBulkRequest = some err →
          (PublishEvents fuel env true index metrics events).ending =
              Ending.returned (some events, some err)
            ∧ (PublishEvents fuel env true index metrics events).flushed = none)
      ∧ (env.startBulkRequest = none → acceptedBatch env index events = [] →
          (PublishEvents fuel env true index metrics events).ending = Ending.returned (none, none)
            ∧ (PublishEvents fuel env true index metrics events).flushed = none)
      ∧ (∀ err, env.startBulkRequest = none → acceptedBatch env index events ≠ [] →
          env.flush (requestBody env index events) = Except.error err →
          (PublishEvents fuel env true index metrics events).ending =
              Ending.returned (some (acceptedBatch env index events), some err)
            ∧ (PublishEvents fuel env true index metrics events).flushed =
              some (requestBody env index events))
      ∧ (∀ raw retryBatch, env.startBulkRequest = none → acceptedBatch env index events ≠ [] →
          env.flush (requestBody env index events) = Except.ok raw →
          bulkCollectPublishFails fuel (jsonReader.init raw) (acceptedBatch env index events) =
            some retryBatch →
          (0 < sliceLen retryBatch →
            (PublishEvents fuel env true index metrics events).ending =
              Ending.returned (retryBatch, some Err.ErrTempBulkFailure))
          ∧ (sliceLen retryBatch = 0 →
            (PublishEvents fuel env true index metrics events).ending =
              Ending.returned (none, none)))
      ∧ (∀ raw, env.startBulkRequest = none → acceptedBatch env index events ≠ [] →
          env.flush (requestBody env index events) = Except.ok raw →
          malformedBeforeItems raw → raw.length ≤ fuel →
          (PublishEvents fuel env true index metrics events).ending =
            Ending.returned (none, none)) := by
  refine ⟨by simp [PublishEvents], ?_, ?_, ?_, ?_, ?_⟩
  · intro err hstart
    simp [PublishEvents, hstart]
  · intro hstart hacc
    rw [PublishEvents_documents fuel env index metrics events hstart hdocs]
    simp [hacc]
  · intro err hstart hacc hflush
    have hlen : (acceptedBatch env index events).length ≠ 0 :=
      fun h => hacc (List.length_eq_zero.mp h)
    rw [PublishEvents_documents fuel env index metrics events hstart hdocs]
    simp [hlen, hflush]
  · intro raw retryBatch hstart hacc hflush hscan
    have hlen : (acceptedBatch env index events).length ≠ 0 :=
      fun h => hacc (List.length_eq_zero.mp h)
    rw [PublishEvents_documents fuel env index metrics events hstart hdocs]
    constructor
    · intro hpos
      simp [hlen, hflush, hscan, hpos]
    · intro hzero
      simp [hlen, hflush, hscan, hzero]
  · intro raw hstart hacc hflush hmal hfuel
    have hlen : (acceptedBatch env index events).length ≠ 0 :=
      fun h => hacc (List.length_eq_zero.mp h)
    have hscan := scan_malformedBeforeItems fuel raw (acceptedBatch env index events) hmal hfuel
    rw [PublishEvents_documents fuel env index metrics events hstart hdocs]
    simp [hlen, hflush, hscan, sliceLen]

/-- Claim C3 at scenario S2 of the specification: three documents are sent, the
second and third come back with `ErrTempBulkFailure`. -/
theorem C3_publishEvents_results_witness :
    (PublishEvents 40 sampleBulkEnv true "winlogbeat" sampleMetrics sampleBatch).ending =
      Ending.returned (some [eventAt (sampleTime 1), eventAt (sampleTime 2)],
        some Err.ErrTempBulkFailure) :=
  ((C3_publishEvents_results 40 sampleBulkEnv "winlogbeat" sampleMetrics sampleBatch
      (by decide)).2.2.2.2.1
    (bulkResponse [("took", Json.int 3)] sampleItems [("errors", Json.bool true)]).toks
    (some [eventAt (sampleTime 1), eventAt (sampleTime 2)]) rfl
    (fun h => absurd (congrArg List.length h) (by decide)) rfl rfl).1 (by decide)

theorem scan_cutInsideStatus {α : Type} (fuel : Nat) (e : α) (es : List α) :
    bulkCollectPublishFails fuel (jsonReader.init cutInsideStatusResponse) (e :: es) = none := by
  cases fuel with
  | zero =>
    simp [bulkCollectPublishFails, jsonReader.init, cutInsideStatusResponse, expectDict_dictStart,
      findItems]
  | succ f =>
    simp [bulkCollectPublishFails, jsonReader.init, cutInsideStatusResponse, expectDict_dictStart,
      findItems, nextFieldName_key, expectArray_arrStart, collectLoop, itemStatus,
      itemStatusInner, itemStatusInnerLoop, nextInt_int, itemStatusInnerLoop_end_of_input,
      nameItems, nameStatus]

/-- On a response whose items are one-entry dictionaries around a status
dictionary whose `status` fields hold integers, at least one item for each
accepted event, the scan returns and `PublishEvents` returns the events whose
status asks for a new attempt, with `ErrTempBulkFailure`, or `(nil, nil)` when
there is none. -/
theorem PublishEvents_bulkResponse (fuel : Nat) (env : BulkEnv) (index : String)
    (metrics : EsMetrics) (events : List MapStr)
    (before after : List (String × Json)) (items : List ItemResp)
    (hdocs : allDocuments index events = true)
    (hstart : env.startBulkRequest = none)
    (hacc : acceptedBatch env index events ≠ [])
    (hflush : env.flush (requestBody env index events) =
      Except.ok (bulkResponse before items after).toks)
    (hkeys : ∀ p ∈ before, p.1 ≠ nameItems)
    (hints : ∀ it ∈ items, statusInts it.fields = true)
    (hlen : (acceptedBatch env index events).length ≤ items.length)
    (hfuel : (bulkResponse before items after).toks.length ≤ fuel) :
    (PublishEvents fuel env true index metrics events).ending =
      if (retrySubset (acceptedBatch env index events) (items.map ItemResp.status)).length = 0 then
        Ending.returned (none, none)
      else
        Ending.returned
          (some (retrySubset (acceptedBatch env index events) (items.map ItemResp.status)),
            some Err.ErrTempBulkFailure) := by
  have hscan := bulkCollectPublishFails_bulkResponse fuel (acceptedBatch env index events)
    before after items hkeys hints hfuel
  rw [if_pos hlen] at hscan
  have hne : (acceptedBatch env index events).length ≠ 0 :=
    fun h => hacc (List.length_eq_zero.mp h)
  rw [PublishEvents_documents fuel env index metrics events hstart hdocs]
  simp only [hne, if_false, hflush, hscan, sliceLen]
  by_cases h0 : (retrySubset (acceptedBatch env index events) (items.map ItemResp.status)).length = 0
  · simp [h0]
  · have hpos : (retrySubset (acceptedBatch env index events) (items.map ItemResp.status)).length > 0 := by
      omega
    simp [h0, hpos]

/-- Claim C3 fails as stated in four places. A response that cannot be parsed
is not always answered with `(nil, nil)`: the scan reads only as many items as
there are accepted events, so a response cut off behind its first item, of
status 500, gives the one event back with `ErrTempBulkFailure`; and on a
response cut off inside a status dictionary the scan does not return,
whatever the fuel. When `startBulkRequest` fails the call returns the input
batch and the error, also for an empty batch, of which encoding accepts no
event. And for a batch with an event that has no `@timestamp` the call panics
in `eventBulkMeta` and returns nothing. -/
theorem C3_counterexample :
    (PublishEvents 40 truncatedEnv true "winlogbeat" sampleMetrics [eventAt (sampleTime 0)]).ending =
        Ending.returned (some [eventAt (sampleTime 0)], some Err.ErrTempBulkFailure)
      ∧ (∀ fuel, (PublishEvents fuel cutInsideStatusEnv true "winlogbeat" sampleMetrics
          [eventAt (sampleTime 0)]).ending = Ending.unfinished)
      ∧ (acceptedBatch failingStartEnv "winlogbeat" [] = []
        ∧ (PublishEvents 40 failingStartEnv true "winlogbeat" sampleMetrics []).ending =
          Ending.returned (some [], some (Err.other "invalid path")))
      ∧ (PublishEvents 40 sampleBulkEnv true "winlogbeat" sampleMetrics
          [eventWithoutTimestamp]).ending = Ending.panicked := by
  refine ⟨rfl, ?_, ⟨rfl, rfl⟩, rfl⟩
  intro fuel
  have hdocs : allDocuments "winlogbeat" [eventAt (sampleTime 0)] = true := by decide
  have hacc : acceptedBatch cutInsideStatusEnv "winlogbeat" [eventAt (sampleTime 0)] =
      [eventAt (sampleTime 0)] := rfl
  rw [PublishEvents_documents fuel cutInsideStatusEnv "winlogbeat" sampleMetrics _ rfl hdocs, hacc]
  have hflush : cutInsideStatusEnv.flush
      (requestBody cutInsideStatusEnv "winlogbeat" [eventAt (sampleTime 0)]) =
      Except.ok cutInsideStatusResponse := rfl
  simp only [hflush, scan_cutInsideStatus, List.length_cons, List.length_nil]
  rfl

theorem PublishEvents_panics (fuel : Nat) (env : BulkEnv) (index : String)
    (metrics : EsMetrics) (events : List MapStr)
    (hstart : env.startBulkRequest = none) (hdocs : allDocuments index events = false) :
    PublishEvents fuel env true index metrics events =
      { metrics := { metrics with publishEventsCallCount := metrics.publishEventsCallCount + 1 },
        flushed := none, ending := Ending.panicked } := by
  simp only [PublishEvents, hstart, bulkEncodePublishRequest_panics env index events hdocs,
    Bool.not_true, Bool.false_eq_true, if_false]

/-- Claim C8: every call of `PublishEvents` raises `publishEventsCallCount` by
exactly 1, however the call ends; a call that reaches the classification of
the response raises `ackedEvents` by the length of the accepted batch minus
the length of the retry batch and `eventsNotAcked` by the length of the retry
batch, two non-negative amounts that add up to the length of the accepted
batch; every other call (not connected, request not started, a panic in the
encoding, no accepted event, flush error, scan that does not return) leaves
both counters unchanged. -/
theorem C8_publishEvents_metrics (fuel : Nat) (env : BulkEnv) (connected : Bool)
    (index : String) (metrics : EsMetrics) (events : List MapStr) :
    (PublishEvents fuel env connected index metrics events).metrics.publishEventsCallCount =
        metrics.publishEventsCallCount + 1
      ∧ (∀ raw retryBatch, connected = true → env.startBulkRequest = none →
          allDocuments index events = true → acceptedBatch env index events ≠ [] →
          env.flush (requestBody env index events) = Except.ok raw →
          bulkCollectPublishFails fuel (jsonReader.init raw) (acceptedBatch env index events) =
            some retryBatch →
          (PublishEvents fuel env connected index metrics events).metrics.ackedEvents =
              metrics.ackedEvents
                + (((acceptedBatch env index events).length : Int) - (sliceLen retryBatch : Int))
            ∧ (PublishEvents fuel env connected index metrics events).metrics.eventsNotAcked =
              metrics.eventsNotAcked + (sliceLen retryBatch : Int)
            ∧ 0 ≤ ((acceptedBatch env index events).length : Int) - (sliceLen retryBatch : Int)
            ∧ 0 ≤ (sliceLen retryBatch : Int)
            ∧ (((acceptedBatch env index events).length : Int) - (sliceLen retryBatch : Int))
                + (sliceLen retryBatch : Int) = ((acceptedBatch env index events).length : Int))
      ∧ ((connected = false ∨ env.startBulkRequest ≠ none ∨ allDocuments index events = false
            ∨ acceptedBatch env index events = []
            ∨ (∃ err, env.flush (requestBody env index events) = Except.error err)
            ∨ (∃ raw, env.flush (requestBody env index events) = Except.ok raw
                ∧ bulkCollectPublishFails fuel (jsonReader.init raw)
                    (acceptedBatch env index events) = none)) →
          (PublishEvents fuel env connected index metrics events).metrics.ackedEvents =
              metrics.ackedEvents
            ∧ (PublishEvents fuel env connected index metrics events).metrics.eventsNotAcked =
              metrics.eventsNotAcked) := by
  cases connected with
  | false =>
    refine ⟨by simp [PublishEvents], ?_, fun _ => by simp [PublishEvents]⟩
    intro raw retryBatch hc
    exact absurd hc (by simp)
  | true =>
    cases hstart : env.startBulkRequest with
    | some err =>
      refine ⟨by simp [PublishEvents, hstart], ?_, fun _ => by simp [PublishEvents, hstart]⟩
      intro raw retryBatch _ hs
      exact absurd hs (by simp)
    | none =>
      cases hdocs : allDocuments index events with
      | false =>
        rw [PublishEvents_panics fuel env index metrics events hstart hdocs]
        refine ⟨rfl, ?_, fun _ => ⟨rfl, rfl⟩⟩
        intro raw retryBatch _ _ hd
        exact absurd hd (by simp)
      | true =>
        have hrun := PublishEvents_documents fuel env index metrics events hstart hdocs
        by_cases hacc : acceptedBatch env index events = []
        · simp only [hacc, List.length_nil, if_true] at hrun
          rw [hrun]
          refine ⟨rfl, ?_, fun _ => ⟨rfl, rfl⟩⟩
          intro raw retryBatch _ _ _ hne
          exact absurd hacc hne
        · have hlen : (acceptedBatch env index events).length ≠ 0 :=
            fun h0 => hacc (List.length_eq_zero.mp h0)
          simp only [hlen, if_false] at hrun
          cases hflush : env.flush (requestBody env index events) with
          | error err =>
            simp only [hflush] at hrun
            rw [hrun]
            refine ⟨rfl, ?_, fun _ => ⟨rfl, rfl⟩⟩
            intro raw retryBatch _ _ _ _ hf
            exact absurd hf (by simp)
          | ok raw =>
            simp only [hflush] at hrun
            cases hscan : bulkCollectPublishFails fuel (jsonReader.init raw)
                (acceptedBatch env index events) with
            | none =>
              simp only [hscan] at hrun
              rw [hrun]
              refine ⟨rfl, ?_, fun _ => ⟨rfl, rfl⟩⟩
              intro raw1 retryBatch _ _ _ _ hf hs
              simp only [Except.ok.injEq] at hf
              subst hf
              rw [hscan] at hs
              exact absurd hs (by simp)
            | some failed =>
              have hle := sliceLen_le fuel (jsonReader.init raw)
                (acceptedBatch env index events) failed hscan
              simp only [hscan] at hrun
              have hm : (PublishEvents fuel env true index metrics events).metrics =
                  { ackedEvents := metrics.ackedEvents
                      + (((acceptedBatch env index events).length : Int) - (sliceLen failed : Int))
                    eventsNotAcked := metrics.eventsNotAcked + (sliceLen failed : Int)
                    publishEventsCallCount := metrics.publishEventsCallCount + 1 } := by
                rw [hrun]
                split_ifs <;> rfl
              rw [hm]
              refine ⟨rfl, ?_, ?_⟩
              · intro raw1 retryBatch _ _ _ _ hf hs
                simp only [Except.ok.injEq] at hf
                subst hf
                rw [hscan] at hs
                simp only [Option.some.injEq] at hs
                subst hs
                refine ⟨rfl, rfl, ?_, ?_, ?_⟩ <;> omega
              · rintro (hc | hs | hd | ha | ⟨err, hf⟩ | ⟨raw1, hf, hs⟩)
                · exact absurd hc (by simp)
                · exact absurd rfl hs
                · exact absurd hd (by simp)
                · exact absurd ha hacc
                · exact absurd hf (by simp)
                · simp only [Except.ok.injEq] at hf
                  subst hf
                  rw [hscan] at hs
                  exact absurd hs (by simp)

/-- Claim C8 at scenario S2 of the specification: the call count goes from 5 to
6, `ackedEvents` from 10 to 11 and `eventsNotAcked` from 2 to 4. -/
theorem C8_publishEvents_metrics_witness :
    (PublishEvents 40 sampleBulkEnv true "winlogbeat" sampleMetrics sampleBatch).metrics.publishEventsCallCount =
        sampleMetrics.publishEventsCallCount + 1
      ∧ (PublishEvents 40 sampleBulkEnv true "winlogbeat" sampleMetrics sampleBatch).metrics.ackedEvents =
        10 + ((3 : Int) - (2 : Int))
      ∧ (PublishEvents 40 sampleBulkEnv true "winlogbeat" sampleMetrics sampleBatch).metrics.eventsNotAcked =
        2 + (2 : Int) :=
  have h := C8_publishEvents_metrics 40 sampleBulkEnv true "winlogbeat" sampleMetrics sampleBatch
  have h2 := h.2.1
    (bulkResponse [("took", Json.int 3)] sampleItems [("errors", Json.bool true)]).toks
    (some [eventAt (sampleTime 1), eventAt (sampleTime 2)]) rfl rfl (by decide)
    (fun h0 => absurd (congrArg List.length h0) (by decide)) rfl rfl
  ⟨h.1, h2.1, h2.2.1⟩

/-- A call of `PublishEvents` that ends does so in the same way, with the same
counters, for any larger fuel. -/
theorem PublishEvents_fuel (f g : Nat) (env : BulkEnv) (connected : Bool) (index : String)
    (metrics : EsMetrics) (events : List MapStr)
    (h : (PublishEvents f env connected index metrics events).ending ≠ Ending.unfinished)
    (hfg : f ≤ g) :
    PublishEvents g env connected index metrics events =
      PublishEvents f env connected index metrics events := by
  unfold PublishEvents at h ⊢
  cases connected with
  | false => rfl
  | true =>
    simp only [Bool.not_true, Bool.false_eq_true, if_false] at h ⊢
    cases hstart : env.startBulkRequest with
    | some err => rfl
    | none =>
      simp only [hstart] at h ⊢
      cases henc : bulkEncodePublishRequest env.send index events with
      | none => rfl
      | some p =>
        obtain ⟨okEvents, body⟩ := p
        simp only [henc] at h ⊢
        by_cases hlen : okEvents.length = 0
        · simp only [hlen, if_true]
        · simp only [hlen, if_false] at h ⊢
          cases hflush : env.flush body with
          | error err => rfl
          | ok raw =>
            simp only [hflush] at h ⊢
            cases hscan : bulkCollectPublishFails f (jsonReader.init raw) okEvents with
            | none => simp [hscan] at h
            | some x =>
              rw [bulkCollectPublishFails_fuel f g (jsonReader.init raw) okEvents x hscan hfg]

/-- A call of `PublishEvents` that has not ended with more fuel than the
response has tokens does not end with any fuel. -/
theorem PublishEvents_unfinished (f : Nat) (env : BulkEnv) (connected : Bool) (index : String)
    (metrics : EsMetrics) (events : List MapStr)
    (h : (PublishEvents f env connected index metrics events).ending = Ending.unfinished)
    (hfuel : ∀ body raw, env.flush body = Except.ok raw → raw.length < f) :
    ∀ g, (PublishEvents g env connected index metrics events).ending = Ending.unfinished := by
  intro g
  unfold PublishEvents at h ⊢
  cases connected with
  | false => simp at h
  | true =>
    simp only [Bool.not_true, Bool.false_eq_true, if_false] at h ⊢
    cases hstart : env.startBulkRequest with
    | some err => simp [hstart] at h
    | none =>
      simp only [hstart] at h ⊢
      cases henc : bulkEncodePublishRequest env.send index events with
      | none => simp [henc] at h
      | some p =>
        obtain ⟨okEvents, body⟩ := p
        simp only [henc] at h ⊢
        by_cases hlen : okEvents.length = 0
        · simp [hlen] at h
        · simp only [hlen, if_false] at h ⊢
          cases hflush : env.flush body with
          | error err => simp [hflush] at h
          | ok raw =>
            simp only [hflush] at h ⊢
            cases hscan : bulkCollectPublishFails f (jsonReader.init raw) okEvents with
            | none =>
              rw [bulkCollectPublishFails_stuck f (jsonReader.init raw) okEvents
                (hfuel body raw hflush) hscan g]
            | some x =>
              simp only [hscan] at h
              split_ifs at h

/-! ## Missing status, unknown fields -/

/-- Claim C4 at a response whose first item has no field `status` and whose
second item has status 429: `itemStatusInner` reports `errExpectedStatusCode`
for the first item, `itemStatus` overwrites that error with the nil error of
`reader.step()` and reports status 0 without error, and
`bulkCollectPublishFails` goes on and returns the second event instead of
nil. -/
theorem C4_missing_status_not_reported :
    (itemStatusInner 40 ⟨(Json.obj [("_id", Json.str "1")]).toks ++ [Tok.dictEnd]⟩).map
        (fun x => x.2.2.2) = some (some Err.errExpectedStatusCode)
      ∧ (itemStatus 40
          ⟨(ItemResp.toJson { verb := "index", fields := [("_id", Json.str "1")] }).toks⟩).map
        (fun x => (x.2.1, x.2.2.2)) = some (0, none)
      ∧ bulkCollectPublishFails 40 (jsonReader.init missingStatusResponse.toks) ["a", "b"] =
          some (some ["b"]) := by
  refine ⟨?_, ?_, ?_⟩ <;> decide

/-- Claim C10 fails as stated in two places. An extra verb entry in the outer
dictionary of an item turns the result of the scan from the retry batch into
nil. And where an item holds a string under `status`, an extra field in its
status dictionary does the same. -/
theorem C10_counterexample :
    (bulkCollectPublishFails 40 (jsonReader.init oneVerbResponse.toks) ["a"] = some (some ["a"])
        ∧ bulkCollectPublishFails 40 (jsonReader.init twoVerbResponse.toks) ["a"] = some none)
      ∧ (bulkCollectPublishFails 40 (jsonReader.init stringStatusResponse.toks) ["a", "b"] =
          some (some ["a"])
        ∧ bulkCollectPublishFails 40 (jsonReader.init stringStatusResponseWithId.toks) ["a", "b"] =
          some none) := by
  refine ⟨⟨?_, ?_⟩, ⟨?_, ?_⟩⟩ <;> decide

/-- A field added under a name that the scanner looks for is not an unknown
field: a second top-level `items` in front of the first, or a second `status`
in a status dictionary, changes the result. -/
theorem known_names_not_ignored :
    bulkCollectPublishFails 40 (jsonReader.init oneVerbResponse.toks) ["a"] = some (some ["a"])
      ∧ bulkCollectPublishFails 40 (jsonReader.init twoItemsFieldsResponse.toks) ["a"] = some none
      ∧ bulkCollectPublishFails 40 (jsonReader.init twoStatusFieldsResponse.toks) ["a"] =
          some (some []) := by
  refine ⟨?_, ?_, ?_⟩ <;> decide

/-- Claim C10, for the fields that the scanner tolerates: take two responses
whose items are one-entry dictionaries around a status dictionary whose
`status` fields hold integers, with no top-level field named `items` in front
of the items. If the two responses have the same `status` entries item by
item, as when the second is the first with top-level fields added, with
fields not named `status` added to status dictionaries, or with other verb
names, then `bulkCollectPublishFails` returns the same result for both,
whatever the batch. -/
theorem C10_unknown_fields_ignored {α : Type} (fuel : Nat) (events : List α)
    (before after before1 after1 : List (String × Json)) (items items1 : List ItemResp)
    (hkeys : ∀ p ∈ before, p.1 ≠ nameItems) (hkeys1 : ∀ p ∈ before1, p.1 ≠ nameItems)
    (hints : ∀ it ∈ items, statusInts it.fields = true)
    (hsame : items1.map (fun it => statusEntries it.fields) =
      items.map (fun it => statusEntries it.fields))
    (hfuel : (bulkResponse before items after).toks.length ≤ fuel)
    (hfuel1 : (bulkResponse before1 items1 after1).toks.length ≤ fuel) :
    bulkCollectPublishFails fuel (jsonReader.init (bulkResponse before1 items1 after1).toks) events =
      bulkCollectPublishFails fuel (jsonReader.init (bulkResponse before items after).toks) events := by
  have hlen1 : items1.length = items.length := by
    have := congrArg List.length hsame
    simpa using this
  have hints1 : ∀ it ∈ items1, statusInts it.fields = true := by
    intro it hit
    obtain ⟨i, hi, rfl⟩ := List.mem_iff_getElem.mp hit
    have h1 : (items1.map (fun it => statusEntries it.fields))[i]? =
        (items.map (fun it => statusEntries it.fields))[i]? := by rw [hsame]
    have hi2 : i < items.length := by omega
    simp only [List.getElem?_map, List.getElem?_eq_getElem hi, List.getElem?_eq_getElem hi2,
      Option.map_some', Option.some.injEq] at h1
    rw [← statusInts_statusEntries, h1, statusInts_statusEntries]
    exact hints _ (List.getElem_mem _)
  have hstatus : items1.map ItemResp.status = items.map ItemResp.status := by
    have hfun : ∀ it : ItemResp, it.status =
        (fun l => if lastStatus l (-1) < 0 then 0 else lastStatus l (-1)) (statusEntries it.fields) := by
      intro it
      simp only [ItemResp.status, lastStatus_statusEntries]
    have h1 := congrArg
      (List.map (fun l => if lastStatus l (-1) < 0 then (0 : Int) else lastStatus l (-1))) hsame
    simp only [List.map_map] at h1
    have e1 : ∀ its : List ItemResp, its.map ItemResp.status =
        its.map ((fun l => if lastStatus l (-1) < 0 then (0 : Int) else lastStatus l (-1))
          ∘ (fun it => statusEntries it.fields)) := by
      intro its
      apply List.map_congr_left
      intro it _
      exact hfun it
    rw [e1, e1]
    exact h1
  rw [bulkCollectPublishFails_bulkResponse fuel events before after items hkeys hints hfuel,
    bulkCollectPublishFails_bulkResponse fuel events before1 after1 items1 hkeys1 hints1 hfuel1,
    hstatus, hlen1]

/-- Claim C10 at a response of two items and the same response with top-level
fields added in front of and behind the items, fields added to both status
dictionaries and other verbs. -/
theorem C10_unknown_fields_ignored_witness :
    bulkCollectPublishFails 60
        (jsonReader.init (bulkResponse [("took", Json.int 3)] decoratedResponseItems
          [("errors", Json.bool true)]).toks) ["a", "b"] =
      bulkCollectPublishFails 60
        (jsonReader.init (bulkResponse [] plainResponseItems []).toks) ["a", "b"] :=
  C10_unknown_fields_ignored 60 ["a", "b"] [] [] [("took", Json.int 3)]
    [("errors", Json.bool true)] plainResponseItems decoratedResponseItems
    (by decide) (by decide) (by decide) rfl (by decide) (by decide)

/-! ## The connection -/

/-- Claim C5, for the failures that follow the construction of the request:
when `execRequest` returns an error because the transport fails, because the
response status is 300 or more, or because the body cannot be read, the flag
`connected` is false afterwards, whatever it was before; when the request
cannot be constructed the connection is left as it was. -/
theorem C5_request_error_disconnects (conn : Connection) (x : Exchange)
    (hbuilt : ∀ e, x ≠ Exchange.newRequestError e)
    (herr : (conn.execRequest x).2.2.2 ≠ none) :
    (conn.execRequest x).1.connected = false
      ∧ ∀ e, (conn.execRequest (Exchange.newRequestError e)).1 = conn := by
  refine ⟨?_, fun e => rfl⟩
  cases x with
  | newRequestError e => exact absurd rfl (hbuilt e)
  | doError e => rfl
  | response status statusLine body =>
    by_cases hs : status ≥ 300
    · simp [Connection.execRequest, hs]
    · cases body with
      | error e => simp [Connection.execRequest, hs]
      | ok obj => simp [Connection.execRequest, hs] at herr

/-- Claim C5 at a connected client whose request is answered with status
503. -/
theorem C5_request_error_disconnects_witness :
    (sampleConnection.execRequest
        (Exchange.response 503 "503 Service Unavailable" (Except.ok []))).1.connected = false :=
  (C5_request_error_disconnects sampleConnection
    (Exchange.response 503 "503 Service Unavailable" (Except.ok []))
    (fun e h => by cases h) (by decide)).1

/-- Claim C5 fails as stated: when the request cannot be constructed,
`execRequest` returns the error and a connected client stays connected. -/
theorem C5_counterexample :
    sampleConnection.connected = true
      ∧ (sampleConnection.execRequest
          (Exchange.newRequestError (Err.other "invalid URL"))).2.2.2 =
          some (Err.other "invalid URL")
      ∧ (sampleConnection.execRequest
          (Exchange.newRequestError (Err.other "invalid URL"))).1.connected = true := by
  refine ⟨rfl, rfl, rfl⟩

/-- Claim C6 at a server that answers the `HEAD` request: with status 200
`Connect` sets `connected` and returns no error; with status 404 it clears
`connected` and returns the error that `execRequest` makes of the status line,
not the sentinel `ErrNotConnected`. -/
theorem C6_connect_returns_status_error :
    { sampleConnection with connected := false }.Connect
        (Exchange.response 200 "200 OK" (Except.ok [])) =
        ({ sampleConnection with connected := true }, none)
      ∧ sampleConnection.Connect (Exchange.response 404 "404 Not Found" (Except.ok [])) =
        ({ sampleConnection with connected := false }, some (Err.other "404 Not Found"))
      ∧ (sampleConnection.Connect (Exchange.response 404 "404 Not Found" (Except.ok []))).2 ≠
        some Err.ErrNotConnected := by
  refine ⟨?_, ?_, ?_⟩ <;> decide

/-- Claim C7 at a connected client whose index request fails in the transport:
`request` returns status 0 with the transport error, which is not
`ErrJSONEncodeFailed`, and `PublishEvent` returns nil instead of that error;
for status 429 and for status 503 it returns the error. -/
theorem C7_unsent_event_not_retried :
    (sampleConnection.request true (Exchange.doError (Err.other "connection refused"))).2.1 = 0
      ∧ (sampleConnection.request true (Exchange.doError (Err.other "connection refused"))).2.2.2 =
          some (Err.other "connection refused")
      ∧ PublishEvent true 0 (some (Err.other "connection refused")) = none
      ∧ PublishEvent true 429 (some (Err.other "429 Too Many Requests")) =
          some (Err.other "429 Too Many Requests")
      ∧ PublishEvent true 503 (some (Err.other "503 Service Unavailable")) =
          some (Err.other "503 Service Unavailable") := by
  refine ⟨rfl, rfl, ?_, ?_, ?_⟩ <;> decide

/-! ## The index name of an event -/

theorem civilFromDays_month_day (days : Int) :
    1 ≤ (civilFromDays days).2.1 ∧ (civilFromDays days).2.1 ≤ 12
      ∧ 1 ≤ (civilFromDays days).2.2 ∧ (civilFromDays days).2.2 ≤ 31 := by
  simp only [civilFromDays]
  split_ifs <;> omega

/-- The bulk path names the index after the UTC date of the timestamp: the
prefix, the year, and the month and the day in two digits. -/
theorem eventBulkMeta_index (index : String) (event : MapStr) (t : Time) (docType : String)
    (hts : event "@timestamp" = some (Value.time t))
    (htype : event "type" = some (Value.str docType)) :
    eventBulkMeta index event =
        some { Index := { Index := sprintfIndex index t.UTC, DocType := docType } }
      ∧ t.UTC.localDay = t.nanos / 1000000000 / secondsPerDay
      ∧ 1 ≤ t.UTC.Month ∧ t.UTC.Month ≤ 12 ∧ 1 ≤ t.UTC.Day ∧ t.UTC.Day ≤ 31 := by
  have hb := civilFromDays_month_day t.UTC.localDay
  refine ⟨by simp [eventBulkMeta, hts, htype], by simp [Time.localDay, Time.UTC, Location.offset],
    hb.1, hb.2.1, hb.2.2.1, hb.2.2.2⟩

/-- The single-document path names the index after the date of the timestamp
in its own location. -/
theorem indexArgs_index (clientIndex : String) (event : MapStr) (t : Time) (docType : String)
    (hts : event "@timestamp" = some (Value.time t))
    (htype : event "type" = some (Value.str docType)) :
    PublishEvent.indexArgs clientIndex event = some (sprintfIndex clientIndex t, docType) := by
  simp [PublishEvent.indexArgs, hts, htype]

/-- The two paths agree on every event whose timestamp has, in its own
location, the date that it has in UTC; a timestamp in UTC is one. -/
theorem index_paths_agree_of_same_day (index : String) (event : MapStr) (t : Time)
    (docType : String)
    (hts : event "@timestamp" = some (Value.time t))
    (htype : event "type" = some (Value.str docType))
    (hday : t.localDay = t.UTC.localDay) :
    (PublishEvent.indexArgs index event).map Prod.fst =
      (eventBulkMeta index event).map (fun bm => bm.Index.Index) := by
  rw [indexArgs_index index event t docType hts htype,
    (eventBulkMeta_index index event t docType hts htype).1]
  simp [sprintfIndex, Time.Year, Time.Month, Time.Day, hday]

/-- Claim C11 at an event stamped 2016-01-01T04:30:00 UTC and shown five hours
west of UTC: the bulk path (`eventBulkMeta`) names the index after the UTC
date, `winlogbeat-2016.01.01`, and the single-document path (`PublishEvent`)
after the date in the location of the timestamp, `winlogbeat-2015.12.31`; for
the same instant shown in UTC both paths name `winlogbeat-2016.01.01`. -/
theorem C11_single_path_uses_local_date :
    (eventBulkMeta "winlogbeat" (eventAt newYearsEve)).map (fun bm => bm.Index.Index) =
        some "winlogbeat-2016.01.01"
      ∧ (PublishEvent.indexArgs "winlogbeat" (eventAt newYearsEve)).map Prod.fst =
        some "winlogbeat-2015.12.31"
      ∧ (eventBulkMeta "winlogbeat" (eventAt newYearsEve.UTC)).map (fun bm => bm.Index.Index) =
        some "winlogbeat-2016.01.01"
      ∧ (PublishEvent.indexArgs "winlogbeat" (eventAt newYearsEve.UTC)).map Prod.fst =
        some "winlogbeat-2016.01.01" := by
  refine ⟨?_, ?_, ?_, ?_⟩ <;> decide


end Beats
